import Mathlib

/-!
Verification of the `tlang` lexer (parse/lex.go) and the lazy-value
primitive (lazy.go).

The lexer is embedded shallowly: the Go `lexer` struct becomes the `Lexer`
structure, each state function becomes a Lean function from `Lexer` to
`Item × Lexer × Option StateK`, and the pull-driven `nextItem` loop becomes
a fuelled loop.  Positions count runes (Lean `Char`s) rather than bytes:
for the ASCII inputs the claims are about the two coincide, and the Go
code's byte-width bookkeeping (`l.width`) degenerates to width 1 per rune
(0 at EOF).  Unicode classification (`unicode.IsLetter`, `unicode.IsPrint`)
is modelled on the ASCII range, which is the range all claims exercise.
-/

set_option maxRecDepth 4000

namespace TLang

/-- itemType from lex.go: identifies the type of lex items.  Constructor
names follow the Go constants. -/
inductive ItemType where
  | itemError
  | itemBool
  | itemChar
  | itemCharConstant
  | itemComment
  | itemComplex
  | itemAssign
  | itemDeclare
  | itemEOF
  | itemField
  | itemIdentifier
  | itemLeftDelim
  | itemLeftParen
  | itemNumber
  | itemPipe
  | itemRawString
  | itemRightDelim
  | itemRightParen
  | itemSpace
  | itemString
  | itemVariable
  | itemKeyword
  | itemBlock
  | itemBreak
  | itemContinue
  | itemDot
  | itemDefine
  | itemElse
  | itemEnd
  | itemIf
  | itemNil
  | itemRange
  | itemTemplate
  | itemWith
  deriving DecidableEq

/-- item from lex.go: a token or text string returned from the scanner.
`val` is the slice `l.input[l.start:l.pos]` (or the error message for
`itemError`); `line` is the line number at the start of the item. -/
structure Item where
  typ : ItemType
  pos : Nat
  val : String
  line : Nat
  notEmpty : Bool
  deriving DecidableEq

/-- The zero value of Go's `item` type: what a state function returns when
it produced no meaningful item (`notEmpty = false`).  Go's zero `itemType`
is `itemError` (= 0). -/
def emptyItem : Item := ⟨.itemError, 0, "", 0, false⟩

/-- The state functions that are ever stored in `l.nextState`
(`lexWhitespace`, `lexInsideAction`, `lexInActionSpace`); the remaining
state functions are only tail-called directly. -/
inductive StateK where
  | whitespaceK
  | insideActionK
  | inActionSpaceK
  deriving DecidableEq

/-- lexer from lex.go: the state of the scanner.  `input` is the input
string as a rune sequence, `pos`/`start`/`width` count runes. -/
structure Lexer where
  input : List Char
  emitComment : Bool
  pos : Nat
  start : Nat
  width : Nat
  parenDepth : Int
  line : Nat
  startLine : Nat
  nextState : Option StateK
  deriving DecidableEq

/-- Result of one state-function step: `(ret, l, next)` for Go's
`(ret item, next stateFn)` with the mutated lexer made explicit. -/
abbrev StepRes := Item × Lexer × Option StateK

/-- Pair an emitted item-and-lexer with the next state. -/
def withNext (p : Item × Lexer) (ns : Option StateK) : StepRes :=
  (p.1, p.2, ns)

/-- The single-quote character (avoids a quote character literal). -/
def squote : Char := Char.ofNat 39

/-- The backquote character. -/
def backquote : Char := Char.ofNat 96

/-- The backslash character. -/
def backslashChar : Char := Char.ofNat 92

/-- The double-quote character. -/
def dquote : Char := Char.ofNat 34

/-- isAlphaNumeric from lex.go: whether r is an alphabetic, digit, or
underscore.  Go consults the full Unicode tables; the embedding restricts
`unicode.IsLetter`/`unicode.IsDigit` to the ASCII range. -/
def isAlphaNumeric (r : Char) : Bool :=
  r = '_' || r.isAlpha || r.isDigit

/-- `isAlphaNumeric` lifted to Go's rune-or-eof (`eof` = `none`);
`isAlphaNumeric(eof)` is false in Go since -1 is no letter or digit. -/
def isAlphaNumericOpt : Option Char → Bool
  | some c => isAlphaNumeric c
  | none => false

/-- Models `r <= unicode.MaxASCII && unicode.IsPrint(r)`: on the ASCII
range Go's IsPrint holds exactly for 0x20..0x7E. -/
def isPrintASCII (r : Char) : Bool :=
  0x20 ≤ r.toNat && r.toNat ≤ 0x7E

/-- One upper-case hexadecimal digit. -/
def hexDigit (n : Nat) : Char :=
  if n < 10 then Char.ofNat (48 + n) else Char.ofNat (55 + n)

/-- Hexadecimal digits of `n`, most significant first (fuelled). -/
def hexDigitsAux : Nat → Nat → List Char
  | 0, _ => []
  | fuel + 1, n => if n = 0 then [] else hexDigitsAux fuel (n / 16) ++ [hexDigit (n % 16)]

/-- Upper-case hexadecimal rendering of `n`, zero-padded to 4 digits:
the `%04X` part of Go's `%#U` verb. -/
def toHex4 (n : Nat) : String :=
  let ds := if n = 0 then ['0'] else hexDigitsAux (n + 1) n
  String.mk (List.replicate (4 - ds.length) '0' ++ ds)

/-- Go's `%#U` verb: `U+0041 'A'` for printable runes, `U+0001` otherwise
(printability modelled on the ASCII range). -/
def fmtRuneU (c : Char) : String :=
  if isPrintASCII c then
    "U+" ++ toHex4 c.toNat ++ " " ++ String.mk [squote, c, squote]
  else
    "U+" ++ toHex4 c.toNat

/-- `%#U` on a rune-or-eof; the `none` case is unreachable in the error
paths that format a rune. -/
def fmtRuneUOpt : Option Char → String
  | some c => fmtRuneU c
  | none => "U+EOF"

/-- Go's `%q` on the short literal slices appearing in number errors
(those slices never contain characters needing escapes). -/
def quoteStr (s : String) : String :=
  String.mk [dquote] ++ s ++ String.mk [dquote]

/-- The slice `l.input[l.start:l.pos]` as a string. -/
def Lexer.curVal (l : Lexer) : String :=
  String.mk ((l.input.drop l.start).take (l.pos - l.start))

/-- next from lex.go: returns the next rune in the input (`none` = eof),
advancing `pos`, setting `width`, and counting a consumed newline. -/
def Lexer.next (l : Lexer) : Option Char × Lexer :=
  match (l.input.drop l.pos).head? with
  | none => (none, { l with width := 0 })
  | some c =>
    let l := { l with width := 1, pos := l.pos + 1 }
    (some c, if c = '\n' then { l with line := l.line + 1 } else l)

/-- peek from lex.go: returns but does not consume the next rune. -/
def Lexer.peek (l : Lexer) : Option Char :=
  (l.input.drop l.pos).head?

/-- backup from lex.go: steps back one rune, correcting the newline
count. -/
def Lexer.backup (l : Lexer) : Lexer :=
  let p := l.pos - l.width
  if l.width = 1 ∧ l.input[p]? = some '\n' then
    { l with pos := p, line := l.line - 1 }
  else
    { l with pos := p }

/-- emit from lex.go: passes an item back to the client and resets
`start`/`startLine`. -/
def Lexer.emit (l : Lexer) (t : ItemType) : Item × Lexer :=
  (⟨t, l.start, l.curVal, l.startLine, true⟩,
   { l with start := l.pos, startLine := l.line })

/-- errorf from lex.go: returns an error token (the caller pairs it with a
nil next state, terminating the scan). -/
def Lexer.errorf (l : Lexer) (msg : String) : Item :=
  ⟨.itemError, l.start, msg, l.startLine, true⟩

/-- accept from lex.go: consumes the next rune if it is from the valid
set (`ContainsRune` on eof is false, so eof is backed up over).
`strings.ContainsRune` is modelled as membership in the rune list of the
valid set. -/
def Lexer.accept (l : Lexer) (valid : String) : Bool × Lexer :=
  let p := l.next
  match p.1 with
  | some c => if valid.data.contains c then (true, p.2) else (false, p.2.backup)
  | none => (false, p.2.backup)

/-- Length of the maximal prefix of runes from the valid set. -/
def acceptRunCount (valid : String) : List Char → Nat
  | [] => 0
  | c :: rest => if valid.data.contains c then acceptRunCount valid rest + 1 else 0

/-- acceptRun from lex.go: consumes a run of runes from the valid set
(`next` until a rune outside the set or eof, then `backup`).  The net
effect on `pos`/`line`/`width`: advance past the run, count its newlines
(the final failed `next`'s effects are undone by `backup`), and leave
`width` 0 when the run ended at eof, 1 otherwise. -/
def Lexer.acceptRun (l : Lexer) (valid : String) : Lexer :=
  let data := l.input.drop l.pos
  let n := acceptRunCount valid data
  { l with
    pos := l.pos + n,
    line := l.line + ((data.take n).filter (fun c => c = '\n')).length,
    width := if l.pos + n < l.input.length then 1 else 0 }

/-- atTerminator from lex.go: whether the input is at a valid termination
character to appear after an identifier (eof counts). -/
def Lexer.atTerminator (l : Lexer) : Bool :=
  match l.input[l.pos]? with
  | none => true
  | some c => ['.', ',', '|', ':', ')', '(', ' ', '\t', '\r', '\n', ';'].contains c

/-- The scanning loop of lexIdentifier/lexFieldOrVariable
(`for i, r = range data { if !isAlphaNumeric(r) { break } }`): returns
Go's `(i, r)` after the loop — the index and rune where it broke, or the
last index and rune when the range was exhausted (`(0, eof)` on empty
data). -/
def idLoop (i : Nat) : List Char → Nat × Option Char
  | [] => (i, none)
  | c :: rest =>
    if isAlphaNumeric c then
      match rest with
      | [] => (i, some c)
      | _ :: _ => idLoop (i + 1) rest
    else (i, some c)

/-- The accept/acceptRun body of scanNumber from lex.go: consumes one
numeric literal (sign, base prefix, digit runs, fraction, exponent,
imaginary suffix). -/
def Lexer.scanNumberCore (l : Lexer) : Lexer :=
  -- Optional leading sign.
  let l1 := (l.accept "+-").2
  -- Is it hex?
  let a0 := l1.accept "0"
  let dl : String × Lexer :=
    if a0.1 then
      -- Note: Leading 0 does not mean octal in floats.
      let ax := a0.2.accept "xX"
      if ax.1 then ("0123456789abcdefABCDEF_", ax.2)
      else
        let ao := ax.2.accept "oO"
        if ao.1 then ("01234567_", ao.2)
        else
          let ab := ao.2.accept "bB"
          if ab.1 then ("01_", ab.2) else ("0123456789_", ab.2)
    else ("0123456789_", a0.2)
  let digits := dl.1
  let l2 := dl.2.acceptRun digits
  let adot := l2.accept "."
  let l3 := if adot.1 then adot.2.acceptRun digits else adot.2
  let l4 :=
    if digits.length = 10 + 1 then
      let ae := l3.accept "eE"
      if ae.1 then ((ae.2.accept "+-").2).acceptRun "0123456789_" else ae.2
    else l3
  let l5 :=
    if digits.length = 16 + 6 + 1 then
      let ap := l4.accept "pP"
      if ap.1 then ((ap.2.accept "+-").2).acceptRun "0123456789_" else ap.2
    else l4
  -- Is it imaginary?
  (l5.accept "i").2

/-- The final check of scanNumber: the next thing mustn't be alphanumeric
(on failure the offending rune is consumed). -/
def Lexer.scanNumber (l : Lexer) : Bool × Lexer :=
  let l6 := l.scanNumberCore
  if isAlphaNumericOpt l6.peek then (false, (l6.next).2) else (true, l6)

/-- lexNumber from lex.go: scans a number — decimal, octal, hex, float,
or imaginary — or a complex pair `1+2i`. -/
def lexNumber (l : Lexer) : StepRes :=
  let s1 := l.scanNumber
  if ¬ s1.1 then
    ((s1.2).errorf ("bad number syntax: " ++ quoteStr (s1.2).curVal), s1.2, none)
  else
    match (s1.2).peek with
    | some sign =>
      if sign = '+' ∨ sign = '-' then
        -- Complex: 1+2i.  No spaces, must end in 'i'.
        let s2 := (s1.2).scanNumber
        if ¬ s2.1 ∨ (s2.2).input[(s2.2).pos - 1]? ≠ some 'i' then
          ((s2.2).errorf ("bad number syntax: " ++ quoteStr (s2.2).curVal), s2.2, none)
        else withNext ((s2.2).emit .itemComplex) (some .insideActionK)
      else withNext ((s1.2).emit .itemNumber) (some .insideActionK)
    | none => withNext ((s1.2).emit .itemNumber) (some .insideActionK)

/-- lexFieldOrVariable from lex.go: scans a field or variable —
`[.$]Alphanumeric` — whose `.` or `$` has been scanned. -/
def lexFieldOrVariable (l : Lexer) (typ : ItemType) : StepRes :=
  if l.atTerminator then
    -- Nothing interesting follows -> "." or "$".
    if typ = .itemVariable then withNext (l.emit .itemVariable) (some .insideActionK)
    else withNext (l.emit .itemDot) (some .insideActionK)
  else
    let data := l.input.drop l.pos
    let ir := idLoop 0 data
    let r := ir.2
    -- when r (the last rune in data) is alphanumeric, i = len(data) and the
    -- width is that of r; otherwise the width is that of the last rune of
    -- data[:i] (0 when i = 0)
    let i := if isAlphaNumericOpt r then data.length else ir.1
    let l1 : Lexer :=
      { l with width := if isAlphaNumericOpt r then 1 else min ir.1 1, pos := l.pos + i }
    if ¬ l1.atTerminator then
      (l1.errorf ("bad character " ++ fmtRuneUOpt r), l1, none)
    else withNext (l1.emit typ) (some .insideActionK)

/-- lexField from lex.go: scans a field `.Alphanumeric`; the `.` has been
scanned. -/
def lexField (l : Lexer) : StepRes :=
  lexFieldOrVariable l .itemField

/-- lexVariable from lex.go: scans a variable `$Alphanumeric`; the `$`
has been scanned. -/
def lexVariable (l : Lexer) : StepRes :=
  if l.atTerminator then
    -- Nothing interesting follows -> "$".
    withNext (l.emit .itemVariable) (some .insideActionK)
  else lexFieldOrVariable l .itemVariable

/-- The cases of lexIdentifier's switch on `data[:i]` (`true` and `false`
both yield the bool item). -/
def keywords : List (String × ItemType) :=
  [(".", .itemDot), ("block", .itemBlock), ("break", .itemBreak),
   ("continue", .itemContinue), ("define", .itemDefine), ("else", .itemElse),
   ("end", .itemEnd), ("if", .itemIf), ("range", .itemRange), ("nil", .itemNil),
   ("template", .itemTemplate), ("with", .itemWith), ("true", .itemBool),
   ("false", .itemBool)]

/-- lexIdentifier's switch on `data[:i]`: a keyword's item type, or — the
default case — FIELD when `data[0] == '.'` and IDENTIFIER otherwise. -/
def keywordType (word : String) (headDot : Bool) : ItemType :=
  match keywords.find? (fun p => p.1 = word) with
  | some p => p.2
  | none => if headDot then .itemField else .itemIdentifier

/-- lexIdentifier from lex.go: scans an alphanumeric word and classifies
it against the keyword table. -/
def lexIdentifier (l : Lexer) : StepRes :=
  let data := l.input.drop l.pos
  let ir := idLoop 0 data
  let r := ir.2
  -- when r (the last rune) is alphanumeric the whole of data was consumed;
  -- the width is that of the last rune (0 when i = 0)
  let i := if isAlphaNumericOpt r then data.length else ir.1
  let l1 : Lexer :=
    { l with width := if isAlphaNumericOpt r then 1 else min ir.1 1, pos := l.pos + i }
  if ¬ l1.atTerminator then
    (l1.errorf ("bad character " ++ fmtRuneUOpt r), l1, none)
  else
    withNext (l1.emit (keywordType (String.mk (data.take i)) (data.head? = some '.')))
      (some .insideActionK)

/-- The scanning loop of lexChar: returns the index of the closing quote,
or `none` when the loop reaches an unescaped newline, a trailing
backslash, or the end of the input (Go's `goto ERR` / fallthrough
cases). -/
def charLoop (data : List Char) (i : Nat) : Option Nat :=
  match h : data[i]? with
  | none => none
  | some r =>
    if r = backslashChar then
      if i ≠ data.length - 1 ∧ data[i + 1]? ≠ some '\n' then charLoop data (i + 1)
      else none
    else if r = '\n' then none
    else if r = squote then
      if i = 1 ∧ data[0]? = some backslashChar then
        -- we can only have one escaped single quote in a char constant
        charLoop data (i + 1)
      else some i
    else charLoop data (i + 1)
termination_by data.length - i
decreasing_by
  all_goals
    have hi : i < data.length := by
      by_contra hc
      rw [List.getElem?_eq_none (Nat.le_of_not_lt hc)] at h
      exact absurd h (by simp)
    omega

/-- lexChar from lex.go: scans a character constant whose initial quote
is already scanned; syntax checking is done by the parser. -/
def lexChar (l : Lexer) : StepRes :=
  let data := l.input.drop l.pos
  match charLoop data 0 with
  | some i =>
    withNext (({ l with width := 1, pos := l.pos + i + 1 } : Lexer).emit .itemCharConstant)
      (some .insideActionK)
  | none => (l.errorf "unterminated character constant", l, none)

/-- The scanning loop of lexQuote: index of the closing double quote, or
`none` on an unescaped newline, trailing backslash, or end of input. -/
def quoteLoop (data : List Char) (i : Nat) : Option Nat :=
  match h : data[i]? with
  | none => none
  | some r =>
    if r = backslashChar then
      if i ≠ data.length - 1 ∧ data[i + 1]? ≠ some '\n' then quoteLoop data (i + 1)
      else none
    else if r = '\n' then none
    else if r = dquote then
      if i ≠ 0 ∧ data[i - 1]? = some backslashChar then quoteLoop data (i + 1)
      else some i
    else quoteLoop data (i + 1)
termination_by data.length - i
decreasing_by
  all_goals
    have hi : i < data.length := by
      by_contra hc
      rw [List.getElem?_eq_none (Nat.le_of_not_lt hc)] at h
      exact absurd h (by simp)
    omega

/-- lexQuote from lex.go: scans a quoted string; the opening quote is
already scanned. -/
def lexQuote (l : Lexer) : StepRes :=
  let data := l.input.drop l.pos
  match quoteLoop data 0 with
  | some i =>
    withNext (({ l with width := 1, pos := l.pos + i + 1 } : Lexer).emit .itemString)
      (some .insideActionK)
  | none => (l.errorf "unterminated quoted string", l, none)

/-- The scanning loop of lexRawQuote
(`for i, r = range l.input[l.pos:]`): counts newlines and finds the
closing backquote; returns `(index of the closing backquote?, line)`. -/
def rawLoop (line i : Nat) : List Char → Option Nat × Nat
  | [] => (none, line)
  | c :: rest =>
    if c = backquote then (some i, line)
    else if c = '\n' then rawLoop (line + 1) (i + 1) rest
    else rawLoop line (i + 1) rest

/-- lexRawQuote from lex.go: scans a raw quoted string; the opening
backquote is already scanned.  Embedded newlines are counted into `line`
but the emitted item keeps `startLine`, the line of the opening
backquote. -/
def lexRawQuote (l : Lexer) : StepRes :=
  let rl := rawLoop l.line 0 (l.input.drop l.pos)
  match rl.1 with
  | none =>
    (({ l with line := rl.2 } : Lexer).errorf "unterminated raw quoted string",
     { l with line := rl.2 }, none)
  | some i =>
    withNext (({ l with line := rl.2, width := 1, pos := l.pos + i + 1 } : Lexer).emit
      .itemRawString) (some .insideActionK)

/-- The scanning loop of lexInActionSpace: skips spaces/tabs/CRs, tracks
a backslash line-continuation, and breaks at a bare newline (consuming
it, with `emitRightDelim` set) or at any other rune.  Returns Go's
`(i, r, line, emitRightDelim)` after the loop; on exhaustion `i`/`r`
keep their last values. -/
def iasLoop (line i : Nat) (hasBS : Bool) : List Char → Nat × Option Char × Nat × Bool
  | [] => (i, none, line, false)
  | c :: rest =>
    if c = ' ' ∨ c = '\t' ∨ c = '\r' then
      match rest with
      | [] => (i, some c, line, false)
      | _ :: _ => iasLoop line (i + 1) hasBS rest
    else if c = '\n' then
      if hasBS then
        -- backslash was the last non-whitespace rune: the action continues
        match rest with
        | [] => (i, some c, line + 1, false)
        | _ :: _ => iasLoop (line + 1) (i + 1) false rest
      else (i + 1, some c, line + 1, true)
    else if c = backslashChar then
      match rest with
      | [] => (i, some c, line, false)
      | _ :: _ => iasLoop line (i + 1) true rest
    else (i, some c, line, false)

/-- lexInActionSpace from lex.go: scans a run of space characters inside
an action, emitting RIGHT_DELIM at an action terminator (bare newline,
`;`, `#`, trailing whitespace at EOF) — note that the paren depth is not
consulted. -/
def lexInActionSpace (l : Lexer) : StepRes :=
  let sc := iasLoop l.line 0 false (l.input.drop l.pos)
  let i := sc.1
  let r := sc.2.1
  let l1 : Lexer := { l with line := sc.2.2.1, width := 1, pos := l.pos + i }
  match r with
  | none =>
    withNext (({ l1 with width := 0, start := l1.pos, startLine := l1.line } : Lexer).emit
      .itemEOF) none
  | some c =>
    -- the switch after the loop: `' '/'\t'/'\r'` consume the rune and fall
    -- through to the EOF check of the `'\n'` case; `';'` is consumed
    let pr : Lexer × Bool :=
      if c = ' ' ∨ c = '\t' ∨ c = '\r' then
        ({ l1 with pos := l1.pos + 1 }, sc.2.2.2 || decide (l1.input.length ≤ l1.pos + 1))
      else if c = '\n' then (l1, sc.2.2.2 || decide (l1.input.length ≤ l1.pos))
      else if c = ';' then ({ l1 with pos := l1.pos + 1 }, true)
      else if c = '#' then (l1, true)
      else (l1, sc.2.2.2)
    if pr.2 then
      withNext (({ pr.1 with start := pr.1.pos, startLine := pr.1.line } : Lexer).emit
        .itemRightDelim) (some .whitespaceK)
    else if i = 0 then
      -- Go tail-calls lexInsideAction(l) here; the embedding returns the
      -- non-meaningful zero item with next state inside-action, which
      -- makes nextItem invoke lexInsideAction on the same lexer — the
      -- token stream is identical, and the call cycle is avoided.
      (emptyItem, pr.1, some .insideActionK)
    else withNext ((pr.1).emit .itemSpace) (some .insideActionK)

/-- lexInsideAction from lex.go: scans the elements inside action
delimiters. -/
def lexInsideAction (l : Lexer) : StepRes :=
  let data := l.input.drop l.pos
  match data.head? with
  | none =>
    if l.parenDepth > 0 then (l.errorf "unclosed left paren", l, none)
    else
      -- schedule lexWhitespace as next to emit EOF
      withNext (l.emit .itemRightDelim) (some .whitespaceK)
  | some r =>
    -- fast path for identifiers and constants (template funcs)
    if '0' ≤ r ∧ r ≤ '9' then lexNumber l
    else if isAlphaNumeric r then lexIdentifier l
    else if r = ' ' ∨ r = '\n' ∨ r = '\t' ∨ r = '\r' then lexInActionSpace l
    else if r = '.' then
      match data.tail.head? with
      | none =>
        -- i == len(data)-1: the dot is at the end of the input
        withNext (({ l with width := 1, pos := l.pos + 1 } : Lexer).emit .itemDot)
          (some .insideActionK)
      | some d2 =>
        if d2 < '0' ∨ '9' < d2 then lexField { l with width := 1, pos := l.pos + 1 }
        else
          -- .[0-9]
          lexNumber l
    else if r = '|' then
      withNext (({ l with width := 1, pos := l.pos + 1 } : Lexer).emit .itemPipe)
        (some .insideActionK)
    else if r = '=' then
      withNext (({ l with width := 1, pos := l.pos + 1 } : Lexer).emit .itemAssign)
        (some .insideActionK)
    else if r = ':' then
      match data.tail.head? with
      | none => (l.errorf "expected :=", l, none)
      | some d2 =>
        if d2 ≠ '=' then (l.errorf "expected :=", l, none)
        else
          withNext (({ l with width := 1, pos := l.pos + 2 } : Lexer).emit .itemDeclare)
            (some .insideActionK)
    else if r = dquote then lexQuote { l with width := 1, pos := l.pos + 1 }
    else if r = backquote then lexRawQuote { l with width := 1, pos := l.pos + 1 }
    else if r = '$' then lexVariable { l with width := 1, pos := l.pos + 1 }
    else if r = squote then lexChar { l with width := 1, pos := l.pos + 1 }
    else if r = '(' then
      let p := ({ l with width := 1, pos := l.pos + 1 } : Lexer).emit .itemLeftParen
      (p.1, { p.2 with parenDepth := p.2.parenDepth + 1 }, some .insideActionK)
    else if r = ')' then
      let p := ({ l with width := 1, pos := l.pos + 1 } : Lexer).emit .itemRightParen
      let l2 : Lexer := { p.2 with parenDepth := p.2.parenDepth - 1 }
      if l2.parenDepth < 0 then
        (l2.errorf ("unexpected right paren " ++ fmtRuneU r), l2, none)
      else (p.1, l2, some .insideActionK)
    else if r = '+' ∨ r = '-' then lexNumber l
    else if r = ';' then
      let l2 : Lexer := { l with width := 1, pos := l.pos + 1 }
      withNext (({ l2 with start := l2.pos } : Lexer).emit .itemRightDelim)
        (some .whitespaceK)
    else if isPrintASCII r then
      -- punctuations (printable ASCII)
      withNext (({ l with width := 1, pos := l.pos + 1 } : Lexer).emit .itemChar)
        (some .inActionSpaceK)
    else
      (l.errorf ("unrecognized character in action: " ++ fmtRuneU r), l, none)

/-- strings.IndexByte: the index of the first occurrence of the byte in
the slice, or none. -/
def indexByte (b : Char) : List Char → Option Nat
  | [] => none
  | c :: rest => if c = b then some 0 else (indexByte b rest).map (· + 1)

/-- lexComment from lex.go: scans a comment line with prefix `#` (the
lexer is positioned at the `#`).  The item's leading `#` is trimmed when
comments are emitted; otherwise the zero item is returned. -/
def lexComment (l : Lexer) : StepRes :=
  let l1 : Lexer :=
    match indexByte '\n' (l.input.drop l.pos) with
    | none => { l with pos := l.input.length }
    | some i => { l with width := 1, pos := l.pos + i + 1, line := l.line + 1 }
  if l1.emitComment then
    let p := l1.emit .itemComment
    -- trim the leading '#'
    ({ p.1 with pos := p.1.pos + 1, val := String.mk (p.1.val.data.drop 1) }, p.2,
      some .whitespaceK)
  else
    (emptyItem, { l1 with start := l1.pos, startLine := l1.line }, some .whitespaceK)

/-- The scanning loop of lexWhitespace: skips spaces/tabs/CRs and
newlines (counting lines); on break returns the offending `(i, r)`; on
exhaustion keeps the last values (`(0, eof)` on empty data). -/
def wsLoop (line i : Nat) : List Char → Nat × Option Char × Nat
  | [] => (i, none, line)
  | c :: rest =>
    if c = ' ' ∨ c = '\r' ∨ c = '\t' then
      match rest with
      | [] => (i, some c, line)
      | _ :: _ => wsLoop line (i + 1) rest
    else if c = '\n' then
      match rest with
      | [] => (i, some c, line + 1)
      | _ :: _ => wsLoop (line + 1) (i + 1) rest
    else (i, some c, line)

/-- lexWhitespace from lex.go: eats all whitespace prefix; on
non-whitespace emits the synthetic LEFT_DELIM (or handles `#`/EOF). -/
def lexWhitespace (l : Lexer) : StepRes :=
  let sc := wsLoop l.line 0 (l.input.drop l.pos)
  let i := sc.1
  let r := sc.2.1
  let l1 : Lexer := { l with line := sc.2.2 }
  let l2 : Lexer :=
    match r with
    | none => { l1 with width := 0 }
    | some _ =>
      if i ≠ 0 then { l1 with pos := l1.pos + i, width := 1 } else l1
  let l3 : Lexer := { l2 with start := l2.pos, startLine := l2.line }
  match r with
  | none => withNext (l3.emit .itemEOF) none
  | some c =>
    if c = ' ' ∨ c = '\r' ∨ c = '\t' ∨ c = '\n' then
      -- when r ends up being whitespace, we must have reached EOF
      withNext (l3.emit .itemEOF) none
    else if c = '#' then lexComment l3
    else withNext (l3.emit .itemLeftDelim) (some .insideActionK)

/-- Dispatch on a stored state. -/
def stepOf : StateK → Lexer → StepRes
  | .whitespaceK => lexWhitespace
  | .insideActionK => lexInsideAction
  | .inActionSpaceK => lexInActionSpace

/-- The loop of nextItem from lex.go, fuelled: while the next state is
non-nil, run it; return on a nil next state (unconditionally) or on a
meaningful item; after the loop, a fake EOF is emitted.  The fuel-zero
fallback also emits the fake EOF; `Lexer.nextItem` supplies enough fuel
that it is never reached. -/
def nextItemLoop : Nat → Lexer → Item × Lexer
  | 0, l => l.emit .itemEOF
  | fuel + 1, l =>
    match l.nextState with
    | none => l.emit .itemEOF
    | some s =>
      let st := stepOf s l
      let l2 : Lexer := { st.2.1 with nextState := st.2.2 }
      match st.2.2 with
      | none => (st.1, l2)
      | some _ => if st.1.notEmpty then (st.1, l2) else nextItemLoop fuel l2

/-- nextItem from lex.go: returns the next item from the input. -/
def Lexer.nextItem (l : Lexer) : Item × Lexer :=
  nextItemLoop (l.input.length + 2) l

/-- lex from lex.go: creates a new scanner for the input string (the
`name` parameter is used only for error reports and is omitted). -/
def lexInit (input : String) (emitComment : Bool) : Lexer :=
  { input := input.toList
    emitComment := emitComment
    pos := 0
    start := 0
    width := 0
    parenDepth := 0
    line := 1
    startLine := 1
    nextState := some .whitespaceK }

/-- The collect driver of lex_test.go: gather emitted items until EOF or
an error item (inclusive), fuelled. -/
def collectItems : Nat → Lexer → List Item
  | 0, _ => []
  | n + 1, l =>
    if (l.nextItem).1.typ = .itemEOF ∨ (l.nextItem).1.typ = .itemError then [(l.nextItem).1]
    else (l.nextItem).1 :: collectItems n (l.nextItem).2

/-- The token stream of an input: repeatedly call nextItem from a fresh
lexer until EOF or an error. -/
def lexString (input : String) (emitComment : Bool) : List Item :=
  collectItems (2 * input.length + 8) (lexInit input emitComment)

/-- `LexRun l items`: repeatedly calling nextItem starting from `l`
produces exactly `items`, ending with (and including) the first EOF or
error item.  This is the relational counterpart of `collectItems`,
independent of any fuel. -/
inductive LexRun : Lexer → List Item → Prop where
  | stop (l : Lexer) (it : Item) (l2 : Lexer) :
      l.nextItem = (it, l2) → (it.typ = .itemEOF ∨ it.typ = .itemError) →
      LexRun l [it]
  | cons (l : Lexer) (it : Item) (l2 : Lexer) (rest : List Item) :
      l.nextItem = (it, l2) → ¬ (it.typ = .itemEOF ∨ it.typ = .itemError) →
      LexRun l2 rest → LexRun l (it :: rest)

/-- Whether a stored state is one of the two inside-an-action states. -/
def insideB : Option StateK → Bool
  | some .insideActionK => true
  | some .inActionSpaceK => true
  | _ => false

/-- Whether the lexer is currently inside an action (an emitted LEFT_DELIM
not yet closed). -/
def Lexer.openB (l : Lexer) : Bool := insideB l.nextState

/-- `altFrom inside items`: in `items`, LEFT_DELIM and RIGHT_DELIM tokens
strictly alternate, the next delimiter expected being RIGHT_DELIM iff
`inside`. -/
def altFrom : Bool → List Item → Prop
  | _, [] => True
  | inside, it :: rest =>
    if it.typ = .itemLeftDelim then inside = false ∧ altFrom true rest
    else if it.typ = .itemRightDelim then inside = true ∧ altFrom false rest
    else altFrom inside rest

/-- The delimiter discipline of one state-function step taken from a state
with openness `before`: LEFT only from outside (entering an inside state),
RIGHT only from inside (returning outside), anything else preserves the
openness or terminates the machine; a nil next state comes only with an
EOF or error item, and a non-meaningful item is the zero item (of error
kind). -/
def stepDelimOk (before : Bool) (r : StepRes) : Prop :=
  (r.1.typ = .itemLeftDelim → before = false ∧ insideB r.2.2 = true) ∧
  (r.1.typ = .itemRightDelim → before = true ∧ insideB r.2.2 = false) ∧
  (r.1.typ ≠ .itemLeftDelim → r.1.typ ≠ .itemRightDelim →
    (r.2.2 = none ∨ insideB r.2.2 = before)) ∧
  (r.2.2 = none → r.1.typ = .itemEOF ∨ r.1.typ = .itemError) ∧
  (r.1.notEmpty = false → r.1.typ = .itemError)

/-- The step discipline of the inner scanners reached from inside an
action: never a delimiter, and the next state is inside-action unless the
scan errored out. -/
def innerOk (r : StepRes) : Prop :=
  r.1.typ ≠ .itemLeftDelim ∧ r.1.typ ≠ .itemRightDelim ∧
  (r.2.2 = none ∨ r.2.2 = some .insideActionK) ∧
  (r.2.2 = none → r.1.typ = .itemError) ∧
  r.1.notEmpty = true

/-- The delimiter discipline of one whole nextItem call. -/
def stepTopOk (l : Lexer) (r : Item × Lexer) : Prop :=
  (r.1.typ = .itemLeftDelim → l.openB = false ∧ r.2.openB = true) ∧
  (r.1.typ = .itemRightDelim → l.openB = true ∧ r.2.openB = false) ∧
  (r.1.typ ≠ .itemLeftDelim → r.1.typ ≠ .itemRightDelim →
    (r.2.nextState = none ∨ r.2.openB = l.openB)) ∧
  (r.2.nextState = none → r.1.typ = .itemEOF ∨ r.1.typ = .itemError)

/-- The stream ends with an EOF or error item. -/
def goodEnd (items : List Item) : Prop :=
  ∃ it, items.getLast? = some it ∧ (it.typ = .itemEOF ∨ it.typ = .itemError)

/-! ### The lazy-value concurrency model (src/lazy.go)

`GetLazyValue` is modelled as an interleaved small-step transition system:
each caller thread is a program counter plus the value it will return, and
the atomic operations of the Go code (the `AddInt32`, the
`CompareAndSwapInt32`, the `Create()` call, the decrements, the `Gosched`
spin and the final read of `value`) are the transitions. `createCount` is a
ghost counter of executions of `Create`. -/

inductive LVPC where
  | start
  | cas
  | create
  | winDec
  | loserDec
  | spin
  | retrn
  | done
  deriving DecidableEq

structure LVState (V : Type) where
  initialized : Bool
  writing : Int
  value : Option V
  createCount : Nat
  threads : List (LVPC × Option V)

def countPCs {V : Type} (ts : List (LVPC × Option V)) (ps : List LVPC) : Nat :=
  (ts.filter (fun t => t.1 ∈ ps)).length

inductive LVStep (V : Type) (cVal : V) : LVState V → LVState V → Prop where
  | inc (ini : Bool) (w : Int) (v : Option V) (cc : Nat)
      (a b : List (LVPC × Option V)) (rv : Option V) :
      LVStep V cVal ⟨ini, w, v, cc, a ++ (.start, rv) :: b⟩
        ⟨ini, w + 1, v, cc, a ++ (.cas, rv) :: b⟩
  | casWin (w : Int) (v : Option V) (cc : Nat)
      (a b : List (LVPC × Option V)) (rv : Option V) :
      LVStep V cVal ⟨false, w, v, cc, a ++ (.cas, rv) :: b⟩
        ⟨true, w, v, cc, a ++ (.create, rv) :: b⟩
  | casLose (w : Int) (v : Option V) (cc : Nat)
      (a b : List (LVPC × Option V)) (rv : Option V) :
      LVStep V cVal ⟨true, w, v, cc, a ++ (.cas, rv) :: b⟩
        ⟨true, w, v, cc, a ++ (.loserDec, rv) :: b⟩
  | createStep (ini : Bool) (w : Int) (v : Option V) (cc : Nat)
      (a b : List (LVPC × Option V)) (rv : Option V) :
      LVStep V cVal ⟨ini, w, v, cc, a ++ (.create, rv) :: b⟩
        ⟨ini, w, some cVal, cc + 1, a ++ (.winDec, rv) :: b⟩
  | winDecStep (ini : Bool) (w : Int) (v : Option V) (cc : Nat)
      (a b : List (LVPC × Option V)) (rv : Option V) :
      LVStep V cVal ⟨ini, w, v, cc, a ++ (.winDec, rv) :: b⟩
        ⟨ini, w - 1, v, cc, a ++ (.retrn, rv) :: b⟩
  | loserDecStep (ini : Bool) (w : Int) (v : Option V) (cc : Nat)
      (a b : List (LVPC × Option V)) (rv : Option V) :
      LVStep V cVal ⟨ini, w, v, cc, a ++ (.loserDec, rv) :: b⟩
        ⟨ini, w - 1, v, cc, a ++ (.spin, rv) :: b⟩
  | spinWait (ini : Bool) (w : Int) (v : Option V) (cc : Nat)
      (a b : List (LVPC × Option V)) (rv : Option V) : w ≠ 0 →
      LVStep V cVal ⟨ini, w, v, cc, a ++ (.spin, rv) :: b⟩
        ⟨ini, w, v, cc, a ++ (.spin, rv) :: b⟩
  | spinExit (ini : Bool) (v : Option V) (cc : Nat)
      (a b : List (LVPC × Option V)) (rv : Option V) :
      LVStep V cVal ⟨ini, 0, v, cc, a ++ (.spin, rv) :: b⟩
        ⟨ini, 0, v, cc, a ++ (.retrn, rv) :: b⟩
  | retStep (ini : Bool) (w : Int) (v : Option V) (cc : Nat)
      (a b : List (LVPC × Option V)) (rv : Option V) :
      LVStep V cVal ⟨ini, w, v, cc, a ++ (.retrn, rv) :: b⟩
        ⟨ini, w, v, cc, a ++ (.done, v) :: b⟩

def lvInit (V : Type) (n : Nat) : LVState V :=
  ⟨false, 0, none, 0, List.replicate n (.start, none)⟩

inductive LVReach (V : Type) (cVal : V) : LVState V → Prop where
  | init (n : Nat) : LVReach V cVal (lvInit V n)
  | step {s s2 : LVState V} : LVReach V cVal s → LVStep V cVal s s2 → LVReach V cVal s2

def LVInv {V : Type} (cVal : V) (s : LVState V) : Prop :=
  s.writing = (countPCs s.threads [.cas, .create, .winDec, .loserDec] : Int) ∧
  (s.initialized = false →
    countPCs s.threads [.create, .winDec, .loserDec, .spin, .retrn, .done] = 0 ∧
    s.createCount = 0) ∧
  (s.initialized = true → countPCs s.threads [.create] + s.createCount = 1) ∧
  ((s.value = none ∧ s.createCount = 0) ∨ (s.value = some cVal ∧ s.createCount = 1)) ∧
  (0 < countPCs s.threads [.winDec] → s.createCount = 1) ∧
  (0 < countPCs s.threads [.retrn] → s.value = some cVal) ∧
  (∀ t ∈ s.threads, t.1 = .done → t.2 = some cVal) ∧
  (0 < countPCs s.threads [.done] → s.value = some cVal)


/-! ### Basic facts about the stream machinery -/

@[simp] lemma withNext_fst (p : Item × Lexer) (ns : Option StateK) :
    (withNext p ns).1 = p.1 := rfl

@[simp] lemma withNext_snd_fst (p : Item × Lexer) (ns : Option StateK) :
    (withNext p ns).2.1 = p.2 := rfl

@[simp] lemma withNext_snd_snd (p : Item × Lexer) (ns : Option StateK) :
    (withNext p ns).2.2 = ns := rfl

@[simp] lemma emit_fst_typ (l : Lexer) (t : ItemType) : (l.emit t).1.typ = t := rfl

@[simp] lemma emit_fst_notEmpty (l : Lexer) (t : ItemType) :
    (l.emit t).1.notEmpty = true := rfl

@[simp] lemma emit_snd_input (l : Lexer) (t : ItemType) :
    (l.emit t).2.input = l.input := rfl

@[simp] lemma emit_snd_pos (l : Lexer) (t : ItemType) : (l.emit t).2.pos = l.pos := rfl

@[simp] lemma emit_snd_parenDepth (l : Lexer) (t : ItemType) :
    (l.emit t).2.parenDepth = l.parenDepth := rfl

@[simp] lemma emit_snd_nextState (l : Lexer) (t : ItemType) :
    (l.emit t).2.nextState = l.nextState := rfl

@[simp] lemma emit_snd_atTerminator (l : Lexer) (t : ItemType) :
    ((l.emit t).2).atTerminator = l.atTerminator := rfl

@[simp] lemma emit_snd_peek (l : Lexer) (t : ItemType) : ((l.emit t).2).peek = l.peek := rfl

@[simp] lemma errorf_typ (l : Lexer) (m : String) : (l.errorf m).typ = .itemError := rfl

@[simp] lemma errorf_val (l : Lexer) (m : String) : (l.errorf m).val = m := rfl

@[simp] lemma errorf_notEmpty (l : Lexer) (m : String) : (l.errorf m).notEmpty = true := rfl

/-- A terminated state machine keeps emitting the fake EOF, whatever the
fuel. -/
lemma nextItemLoop_none (fuel : Nat) (l : Lexer) (h : l.nextState = none) :
    nextItemLoop fuel l = l.emit .itemEOF := by
  cases fuel with
  | zero => rfl
  | succ n => simp [nextItemLoop, h]

/-- A fuelled collect run that ends in an EOF or error item is a complete
run of the lexer. -/
lemma collect_lexRun (n : Nat) (l : Lexer) (items : List Item)
    (hc : collectItems n l = items) (hend : goodEnd items) :
    LexRun l items := by
  induction n generalizing l items with
  | zero =>
    subst hc
    obtain ⟨it, hit, _⟩ := hend
    simp [collectItems, List.getLast?] at hit
  | succ n ih =>
    rw [collectItems] at hc
    by_cases hstop : (l.nextItem).1.typ = .itemEOF ∨ (l.nextItem).1.typ = .itemError
    · rw [if_pos hstop] at hc
      subst hc
      exact LexRun.stop l _ (l.nextItem).2 rfl hstop
    · rw [if_neg hstop] at hc
      subst hc
      refine LexRun.cons l _ (l.nextItem).2 _ rfl hstop (ih _ _ rfl ?_)
      obtain ⟨it, hit, htyp⟩ := hend
      rcases hrest : collectItems n (l.nextItem).2 with _ | ⟨it2, rest⟩
      · rw [hrest] at hit
        simp [List.getLast?] at hit
        subst hit
        exact absurd htyp hstop
      · rw [hrest] at hit
        rw [List.getLast?_cons_cons] at hit
        exact ⟨it, hrest ▸ hit, htyp⟩

/-! ### C10 -/

/-- C10: once the lexer's state machine has terminated (`nextState` is
null), every call to nextItem returns an item of kind EOF and leaves the
machine terminated, so no further meaningful non-EOF token is ever
yielded. -/
theorem C10_eof_after_termination (l : Lexer) (h : l.nextState = none) :
    (l.nextItem).1.typ = .itemEOF ∧ (l.nextItem).2.nextState = none := by
  unfold Lexer.nextItem
  rw [nextItemLoop_none _ _ h]
  exact ⟨rfl, h⟩

/-- Witness for C10 at a concrete terminated lexer. -/
theorem C10_eof_after_termination_witness :
    ((({ lexInit "ab" true with nextState := none } : Lexer).nextItem).1.typ = .itemEOF ∧
      (({ lexInit "ab" true with nextState := none } : Lexer).nextItem).2.nextState = none) :=
  C10_eof_after_termination { lexInit "ab" true with nextState := none } rfl

/-! ### C7 -/

/-- C7: failing input for the line-number bookkeeping.  Lexing the input
consisting of a single newline emits the EOF item with `pos` 0 but `line`
2, although zero newline bytes precede position 0 (the claimed line is
1 + 0 = 1): `lexWhitespace` counts the trailing newline into `line`
without advancing `pos` past it. -/
theorem C7_line_of_token_start :
    lexString "\n" true = [⟨.itemEOF, 0, "", 2, true⟩] ∧
    1 + ((("\n".toList.take 0).filter (fun c => c = '\n')).length) = 1 := by
  exact ⟨by decide, rfl⟩

/-! ### C8 -/

/-- The raw-quote scanning loop fails (and counts every newline) exactly
when no closing backquote occurs in the data. -/
lemma rawLoop_of_not_mem (line i : Nat) (data : List Char) (h : backquote ∉ data) :
    rawLoop line i data =
      (none, line + (data.filter (fun c => c = '\n')).length) := by
  induction data generalizing line i with
  | nil => simp [rawLoop]
  | cons c rest ih =>
    simp only [List.mem_cons, not_or] at h
    rw [rawLoop, if_neg (fun hc => h.1 hc.symm)]
    by_cases hnl : c = '\n'
    · rw [if_pos hnl, ih _ _ h.2]
      simp [List.filter, hnl]
      omega
    · rw [if_neg hnl, ih _ _ h.2]
      simp [List.filter, hnl]

/-- C8: a raw string whose opening backquote is never closed before the
end of the input is reported as the error "unterminated raw quoted
string" and terminates the scan; a closed raw string may contain embedded
LF bytes and is emitted as a single RAW_STRING token, verbatim (no escape
processing, backslashes kept), carrying the line of its opening
backquote. -/
theorem C8_raw_string (l : Lexer) (h : backquote ∉ l.input.drop l.pos) :
    ((lexRawQuote l).1.typ = .itemError ∧
      (lexRawQuote l).1.val = "unterminated raw quoted string" ∧
      (lexRawQuote l).2.2 = none) ∧
    (lexString "`a\\b\nc`" true).map (fun it => (it.typ, it.val, it.line)) =
      [(.itemLeftDelim, "", 1), (.itemRawString, "`a\\b\nc`", 1),
       (.itemRightDelim, "", 2), (.itemEOF, "", 2)] := by
  refine ⟨?_, by decide⟩
  simp only [lexRawQuote]
  rw [rawLoop_of_not_mem _ _ _ h]
  exact ⟨rfl, rfl, rfl⟩

/-- Witness for C8 at a concrete unterminated raw string: the lexer state
inside ``xx` just after the opening backquote. -/
theorem C8_raw_string_witness :
    (((lexRawQuote { lexInit "`xx" true with pos := 1, width := 1 }).1.typ = .itemError ∧
      (lexRawQuote { lexInit "`xx" true with pos := 1, width := 1 }).1.val =
        "unterminated raw quoted string" ∧
      (lexRawQuote { lexInit "`xx" true with pos := 1, width := 1 }).2.2 = none) ∧
    (lexString "`a\\b\nc`" true).map (fun it => (it.typ, it.val, it.line)) =
      [(.itemLeftDelim, "", 1), (.itemRawString, "`a\\b\nc`", 1),
       (.itemRightDelim, "", 2), (.itemEOF, "", 2)]) :=
  C8_raw_string { lexInit "`xx" true with pos := 1, width := 1 } (by decide)

/-! ### C2 -/

/-- C2 counterexample: lexing `(1\n2)` emits a RIGHT_DELIM at the bare
newline even though the paren depth there is 1 — the third nextItem call
leaves a lexer with paren depth 1 whose next item is that RIGHT_DELIM. -/
theorem C2_newline_in_parens_cex :
    (lexString "(1\n2)" true).map (fun it => (it.typ, it.pos)) =
      [(.itemLeftDelim, 0), (.itemLeftParen, 0), (.itemNumber, 1),
       (.itemRightDelim, 3), (.itemLeftDelim, 3), (.itemNumber, 3),
       (.itemRightParen, 4), (.itemRightDelim, 5), (.itemEOF, 5)] ∧
    ((((lexInit "(1\n2)" true).nextItem.2).nextItem.2).nextItem.2).parenDepth = 1 ∧
    (((((lexInit "(1\n2)" true).nextItem.2).nextItem.2).nextItem.2).nextItem.1).typ =
      .itemRightDelim := by
  decide

/-- C2 amended: a bare newline encountered in an action's whitespace does
terminate the action regardless of the paren depth: even with paren depth
greater than zero, lexInActionSpace emits a RIGHT_DELIM at the newline and
returns to the whitespace state, carrying the unchanged positive paren
depth over into the following action. -/
theorem C2_newline_terminates_despite_parens (l : Lexer)
    (h : (l.input.drop l.pos).head? = some '\n') (hd : 0 < l.parenDepth) :
    (lexInActionSpace l).1.typ = .itemRightDelim ∧
    (lexInActionSpace l).2.2 = some .whitespaceK ∧
    (lexInActionSpace l).2.1.parenDepth = l.parenDepth := by
  rcases hD : l.input.drop l.pos with _ | ⟨c, rest⟩
  · rw [hD] at h; simp at h
  · rw [hD] at h
    simp only [List.head?] at h
    injection h with h
    subst h
    simp [lexInActionSpace, hD, iasLoop, Lexer.emit, withNext]

/-- Witness for C2 amended: inside `(1\n2)` positioned at the newline with
paren depth 1. -/
theorem C2_newline_terminates_despite_parens_witness :
    ((lexInActionSpace { lexInit "(1\n2)" true with pos := 2, start := 2, width := 1, parenDepth := 1 }).1.typ = .itemRightDelim ∧
    (lexInActionSpace { lexInit "(1\n2)" true with pos := 2, start := 2, width := 1, parenDepth := 1 }).2.2 = some .whitespaceK ∧
    (lexInActionSpace { lexInit "(1\n2)" true with pos := 2, start := 2, width := 1, parenDepth := 1 }).2.1.parenDepth =
      ({ lexInit "(1\n2)" true with pos := 2, start := 2, width := 1, parenDepth := 1 } : Lexer).parenDepth) :=
  C2_newline_terminates_despite_parens _ (by decide) (by decide)

/-! ### C3 -/

/-- C3 counterexample: in `( ` the end of input is reached while the paren
depth is 1 (the lexer state after three items has paren depth 1 and a
terminated machine), yet the stream ends normally with RIGHT_DELIM and EOF
and contains no "unclosed left paren" error. -/
theorem C3_eof_with_open_paren_cex :
    (lexString "( " true).map (fun it => (it.typ, it.val)) =
      [(.itemLeftDelim, ""), (.itemLeftParen, "("),
       (.itemRightDelim, ""), (.itemEOF, "")] ∧
    ((((lexInit "( " true).nextItem.2).nextItem.2).nextItem.2).parenDepth = 1 ∧
    (((((lexInit "( " true).nextItem.2).nextItem.2).nextItem.2).nextItem.1).typ = .itemEOF := by
  decide

/-- C3 amended: the "unclosed left paren" error is reported only when the
end of input is reached in the inside-action state (immediately after a
token) with paren depth greater than zero; reaching EOF through trailing
in-action whitespace emits RIGHT_DELIM and EOF normally even with unbalanced
parens. -/
theorem C3_unclosed_paren_inside_action (l : Lexer)
    (h : l.input.drop l.pos = []) (hd : 0 < l.parenDepth) :
    (lexInsideAction l).1.typ = .itemError ∧
    (lexInsideAction l).1.val = "unclosed left paren" ∧
    (lexInsideAction l).2.2 = none := by
  simp [lexInsideAction, h, hd, Lexer.errorf]

/-! ### C5 -/

/-- The keyword switch never classifies a word as an error item. -/
lemma keywordType_ne_error (w : String) (b : Bool) : keywordType w b ≠ .itemError := by
  unfold keywordType
  split
  · rename_i p hp
    have hm := List.mem_of_find?_eq_some hp
    simp only [keywords, List.mem_cons, List.not_mem_nil, or_false] at hm
    rcases hm with rfl | rfl | rfl | rfl | rfl | rfl | rfl | rfl | rfl | rfl | rfl | rfl | rfl | rfl <;> simp
  · split <;> simp

/-- lexIdentifier either stops at a terminator or reports "bad character". -/
lemma lexIdentifier_spec (l : Lexer) :
    ((lexIdentifier l).1.typ ≠ .itemError → (lexIdentifier l).2.1.atTerminator = true) ∧
    ((lexIdentifier l).1.typ = .itemError →
      ∃ s, (lexIdentifier l).1.val = "bad character " ++ s) := by
  unfold lexIdentifier
  dsimp only []
  split <;>
  · split
    · constructor
      · intro h; exact absurd rfl h
      · intro _; exact ⟨_, rfl⟩
    · rename_i hterm
      rw [Bool.not_eq_true, Bool.not_eq_false] at hterm
      constructor
      · intro _
        simpa using hterm
      · intro h
        simp at h
        exact absurd h (keywordType_ne_error _ _)

/-- lexFieldOrVariable (for a non-error target item type) either stops at
a terminator or reports "bad character". -/
lemma lexFieldOrVariable_spec (l : Lexer) (typ : ItemType) (ht : typ ≠ .itemError) :
    ((lexFieldOrVariable l typ).1.typ ≠ .itemError →
      (lexFieldOrVariable l typ).2.1.atTerminator = true) ∧
    ((lexFieldOrVariable l typ).1.typ = .itemError →
      ∃ s, (lexFieldOrVariable l typ).1.val = "bad character " ++ s) := by
  unfold lexFieldOrVariable
  split
  · rename_i hterm
    split <;>
    · constructor
      · intro _; simpa using hterm
      · intro h; simp at h
  · dsimp only []
    split <;>
    · split
      · constructor
        · intro h; exact absurd rfl h
        · intro _; exact ⟨_, rfl⟩
      · rename_i hterm
        rw [Bool.not_eq_true, Bool.not_eq_false] at hterm
        constructor
        · intro _; simpa using hterm
        · intro h; simp at h; exact absurd h ht

/-- C5: every identifier, keyword, field, or variable token scanned inside
an action must be followed by a terminator byte
(`. , | : ( ) space tab CR LF ;` or EOF): when the scan succeeds the lexer
rests at a terminator, and otherwise a "bad character" error is reported.
In particular `$x+2` yields a "bad character" error while `$x +2` yields a
VARIABLE, a SPACE and a signed NUMBER token. -/
theorem C5_terminator_after_name_tokens :
    (∀ l : Lexer,
      ((lexIdentifier l).1.typ ≠ .itemError → (lexIdentifier l).2.1.atTerminator = true) ∧
      ((lexIdentifier l).1.typ = .itemError →
        ∃ s, (lexIdentifier l).1.val = "bad character " ++ s)) ∧
    (∀ l : Lexer,
      ((lexField l).1.typ ≠ .itemError → (lexField l).2.1.atTerminator = true) ∧
      ((lexField l).1.typ = .itemError →
        ∃ s, (lexField l).1.val = "bad character " ++ s)) ∧
    (∀ l : Lexer,
      ((lexVariable l).1.typ ≠ .itemError → (lexVariable l).2.1.atTerminator = true) ∧
      ((lexVariable l).1.typ = .itemError →
        ∃ s, (lexVariable l).1.val = "bad character " ++ s)) ∧
    (lexString "$x+2" true).map (fun it => (it.typ, it.val)) =
      [(.itemLeftDelim, ""), (.itemError, "bad character U+002B '+'")] ∧
    (lexString "$x +2" true).map (fun it => (it.typ, it.val)) =
      [(.itemLeftDelim, ""), (.itemVariable, "$x"), (.itemSpace, " "),
       (.itemNumber, "+2"), (.itemRightDelim, ""), (.itemEOF, "")] := by
  refine ⟨lexIdentifier_spec, ?_, ?_, by decide, by decide⟩
  · intro l
    exact lexFieldOrVariable_spec l .itemField (by simp)
  · intro l
    unfold lexVariable
    split
    · rename_i hterm
      constructor
      · intro _; simpa using hterm
      · intro h; simp at h
    · exact lexFieldOrVariable_spec l .itemVariable (by simp)

/-- Witness for C5's universally quantified parts at concrete lexers. -/
theorem C5_terminator_after_name_tokens_witness :
    (lexIdentifier (lexInit "ab." true)).2.1.atTerminator = true ∧
    (∃ s, (lexVariable { lexInit "$x+2" true with pos := 1, width := 1 }).1.val =
      "bad character " ++ s) :=
  ⟨(C5_terminator_after_name_tokens.1 (lexInit "ab." true)).1 (by decide),
   (C5_terminator_after_name_tokens.2.2.1 { lexInit "$x+2" true with pos := 1, width := 1 }).2
     (by decide)⟩

/-! ### C6 -/

/-- When scanNumber succeeds, the rune after the consumed literal is not
alphanumeric. -/
lemma scanNumber_peek (l : Lexer) (h : (l.scanNumber).1 = true) :
    isAlphaNumericOpt (l.scanNumber).2.peek = false := by
  unfold Lexer.scanNumber at h ⊢
  dsimp only [] at h ⊢
  split at h
  · exact absurd h (by simp)
  · rename_i hc
    rw [if_neg hc]
    simpa using hc

/-- C6 counterexample: after the literal in `3@` the next byte `@` is not
a terminator, yet no "bad number syntax" error is reported — the lexer
emits NUMBER `3` and then a CHAR token for `@`. -/
theorem C6_number_terminator_cex :
    (lexString "3@" true).map (fun it => (it.typ, it.val)) =
      [(.itemLeftDelim, ""), (.itemNumber, "3"), (.itemChar, "@"), (.itemEOF, "")] ∧
    ({ lexInit "3@" true with pos := 1 } : Lexer).atTerminator = false := by
  decide

/-- C6 amended: after a numeric literal the next byte must not be
alphanumeric (letter, digit or underscore) — not necessarily a terminator:
when lexNumber emits without error the emitted item is a NUMBER or COMPLEX
and the rune at the resulting position is not alphanumeric, and every
lexNumber error message is "bad number syntax: …". -/
theorem C6_number_follower (l : Lexer) :
    ((lexNumber l).1.typ = .itemError →
      ∃ s, (lexNumber l).1.val = "bad number syntax: " ++ s) ∧
    ((lexNumber l).1.typ ≠ .itemError →
      ((lexNumber l).1.typ = .itemNumber ∨ (lexNumber l).1.typ = .itemComplex) ∧
      isAlphaNumericOpt ((lexNumber l).2.1.peek) = false) := by
  unfold lexNumber
  dsimp only []
  split
  · constructor
    · intro _; exact ⟨_, rfl⟩
    · intro h; exact absurd rfl h
  · rename_i hok
    rw [Bool.not_eq_true, Bool.not_eq_false] at hok
    split
    · rename_i sign hpeek
      split
      · split
        · constructor
          · intro _; exact ⟨_, rfl⟩
          · intro h; exact absurd rfl h
        · rename_i hcplx
          rw [not_or, Bool.not_eq_true, Bool.not_eq_false] at hcplx
          constructor
          · intro h; simp at h
          · intro _
            refine ⟨Or.inr (by simp), ?_⟩
            simpa using scanNumber_peek _ hcplx.1
      · constructor
        · intro h; simp at h
        · intro _
          refine ⟨Or.inl (by simp), ?_⟩
          simpa using scanNumber_peek _ hok
    · rename_i hpeek
      constructor
      · intro h; simp at h
      · intro _
        refine ⟨Or.inl (by simp), ?_⟩
        simp [hpeek, isAlphaNumericOpt]

/-- Witness for C6 amended at the concrete inputs `3k` (error) and `3@`
(no error, non-alphanumeric follower). -/
theorem C6_number_follower_witness :
    (∃ s, (lexNumber (lexInit "3k" true)).1.val = "bad number syntax: " ++ s) ∧
    (((lexNumber (lexInit "3@" true)).1.typ = .itemNumber ∨
       (lexNumber (lexInit "3@" true)).1.typ = .itemComplex) ∧
      isAlphaNumericOpt ((lexNumber (lexInit "3@" true)).2.1.peek) = false) :=
  ⟨(C6_number_follower (lexInit "3k" true)).1 (by decide),
   (C6_number_follower (lexInit "3@" true)).2 (by decide)⟩

/-- Witness for C3 amended: the lexer state of `(3` after the number. -/
theorem C3_unclosed_paren_inside_action_witness :
    ((lexInsideAction { lexInit "(3" true with pos := 2, start := 2, width := 1, parenDepth := 1 }).1.typ = .itemError ∧
    (lexInsideAction { lexInit "(3" true with pos := 2, start := 2, width := 1, parenDepth := 1 }).1.val = "unclosed left paren" ∧
    (lexInsideAction { lexInit "(3" true with pos := 2, start := 2, width := 1, parenDepth := 1 }).2.2 = none) :=
  C3_unclosed_paren_inside_action _ (by decide) (by decide)

/-! ### C4 -/

/-- When the byte does not occur, indexByte fails and the whole slice is
its newline-free prefix. -/
lemma indexByte_none (b : Char) (xs : List Char) (h : indexByte b xs = none) :
    b ∉ xs ∧ xs.takeWhile (fun c => c ≠ b) = xs := by
  induction xs with
  | nil => simp
  | cons c rest ih =>
    rw [indexByte] at h
    by_cases hc : c = b
    · rw [if_pos hc] at h; exact absurd h (by simp)
    · rw [if_neg hc] at h
      rcases hr : indexByte b rest with _ | j
      · obtain ⟨h1, h2⟩ := ih hr
        constructor
        · simp only [List.mem_cons, not_or]
          exact ⟨fun he => hc he.symm, h1⟩
        · rw [List.takeWhile_cons_of_pos (by simp [hc])]
          rw [h2]
      · rw [hr] at h; exact absurd h (by simp)

/-- When indexByte finds the byte at j, the slice up to and including it
is the byte-free prefix followed by the byte. -/
lemma indexByte_some (b : Char) (xs : List Char) (j : Nat) (h : indexByte b xs = some j) :
    xs.take (j + 1) = xs.takeWhile (fun c => c ≠ b) ++ [b] ∧ b ∈ xs := by
  induction xs generalizing j with
  | nil => simp [indexByte] at h
  | cons c rest ih =>
    rw [indexByte] at h
    by_cases hc : c = b
    · rw [if_pos hc] at h
      injection h with h
      subst hc
      subst h
      refine ⟨?_, by simp⟩
      rw [List.takeWhile_cons_of_neg (by simp)]
      rfl
    · rw [if_neg hc] at h
      rcases hr : indexByte b rest with _ | j2
      · rw [hr] at h; simp at h
      · rw [hr] at h
        simp at h
        obtain ⟨h1, h2⟩ := ih j2 hr
        subst h
        constructor
        · rw [List.take_succ_cons]
          rw [List.takeWhile_cons_of_pos (by simp [hc])]
          simp [h1]
        · simp [h2]

/-- lexComment consumes the rest of the line (newline included) and emits
the COMMENT item with the leading `#` stripped iff comment emission is
enabled (otherwise the zero non-item), returning to the whitespace
state. -/
lemma lexComment_spec (l : Lexer) (rest : List Char)
    (hs : l.start = l.pos) (hD : l.input.drop l.pos = '#' :: rest) :
    (l.emitComment = true →
      (lexComment l).1.typ = .itemComment ∧
      (lexComment l).1.val =
        String.mk (rest.takeWhile (fun c => c ≠ '\n') ++
          if '\n' ∈ rest then ['\n'] else [])) ∧
    (l.emitComment = false → (lexComment l).1.notEmpty = false) ∧
    (lexComment l).2.2 = some .whitespaceK := by
  have hlen : ('#' :: rest).length = l.input.length - l.pos := by
    rw [← hD, List.length_drop]
  unfold lexComment
  dsimp only []
  rw [hD, indexByte, if_neg (show ¬('#' = '\n') by decide)]
  rcases hr : indexByte '\n' rest with _ | j
  · obtain ⟨h1, h2⟩ := indexByte_none _ _ hr
    simp only [Option.map_none']
    constructor
    · intro hec
      refine ⟨by simp [hec], ?_⟩
      simp only [hec, if_true]
      simp only [Lexer.emit, Lexer.curVal, hs, hD]
      rw [← hlen, List.take_length]
      simp only [decide_not] at h2
      simp [h1, h2]
    · constructor
      · intro hec; simp [hec, emptyItem]
      · by_cases hec : l.emitComment <;> simp [hec]
  · obtain ⟨h1, h2⟩ := indexByte_some _ _ _ hr
    simp only [Option.map_some']
    constructor
    · intro hec
      refine ⟨by simp [hec], ?_⟩
      simp only [hec, if_true]
      simp only [Lexer.emit, Lexer.curVal, hs, hD]
      have hdiff : l.pos + (j + 1) + 1 - l.pos = j + 2 := by omega
      rw [hdiff]
      rw [List.take_succ_cons]
      simp only [decide_not] at h1
      simp [h1, h2]
    · constructor
      · intro hec; simp [hec, emptyItem]
      · by_cases hec : l.emitComment <;> simp [hec]

/-- A `#` heading the remaining input inside an action is lexed as a CHAR
token (it is a printable punctuator there, not a comment opener). -/
lemma lexInsideAction_hash (l : Lexer) (h : (l.input.drop l.pos).head? = some '#') :
    (lexInsideAction l).1.typ = .itemChar ∧ (lexInsideAction l).2.2 = some .inActionSpaceK := by
  rcases hD : l.input.drop l.pos with _ | ⟨c, rest⟩
  · rw [hD] at h; simp at h
  · rw [hD] at h
    simp only [List.head?] at h
    injection h with h
    subst h
    simp [lexInsideAction, hD, isAlphaNumeric, isPrintASCII, squote, backquote, dquote]

/-- `#` is not a terminator byte. -/
lemma atTerminator_hash (l : Lexer) (h : l.input[l.pos]? = some '#') :
    l.atTerminator = false := by
  unfold Lexer.atTerminator
  rw [h]
  decide

/-- C4 counterexample: in `3#c` the `#` occurs outside any string (right
after the number token); even with comment emission enabled the rest of
the line is not consumed as a comment — the `#` becomes a CHAR token, `c`
an IDENTIFIER, and no COMMENT token is emitted. -/
theorem C4_hash_after_token_cex :
    (lexString "3#c" true).map (fun it => (it.typ, it.val)) =
      [(.itemLeftDelim, ""), (.itemNumber, "3"), (.itemChar, "#"),
       (.itemIdentifier, "c"), (.itemRightDelim, ""), (.itemEOF, "")] := by
  decide

/-- C4 amended: a `#` starts a comment only when it is reached in the
whitespace state — at the start of an action position or after in-action
whitespace (which first closes the action): lexComment then consumes the
rest of the line, emitting a COMMENT token with the leading `#` stripped
iff comment emission is enabled and no token otherwise.  A `#` directly
following a token inside an action is not a comment: it is not a
terminator byte (names followed by it report "bad character") and the
inside-action dispatcher lexes it as a CHAR token. -/
theorem C4_comment_handling :
    (∀ (l : Lexer) (rest : List Char), l.start = l.pos →
      l.input.drop l.pos = '#' :: rest →
      ((l.emitComment = true →
        (lexComment l).1.typ = .itemComment ∧
        (lexComment l).1.val =
          String.mk (rest.takeWhile (fun c => c ≠ '\n') ++
            if '\n' ∈ rest then ['\n'] else [])) ∧
       (l.emitComment = false → (lexComment l).1.notEmpty = false) ∧
       (lexComment l).2.2 = some .whitespaceK)) ∧
    (∀ l : Lexer, l.input[l.pos]? = some '#' → l.atTerminator = false) ∧
    (∀ l : Lexer, (l.input.drop l.pos).head? = some '#' →
      (lexInsideAction l).1.typ = .itemChar ∧
      (lexInsideAction l).2.2 = some .inActionSpaceK) ∧
    (lexString "hello # hi" true).map (fun it => (it.typ, it.val)) =
      [(.itemLeftDelim, ""), (.itemIdentifier, "hello"), (.itemRightDelim, ""),
       (.itemComment, " hi"), (.itemEOF, "")] ∧
    (lexString "hello # hi" false).map (fun it => (it.typ, it.val)) =
      [(.itemLeftDelim, ""), (.itemIdentifier, "hello"), (.itemRightDelim, ""),
       (.itemEOF, "")] :=
  ⟨lexComment_spec, atTerminator_hash, lexInsideAction_hash, by decide, by decide⟩

/-- Witness for C4 amended at concrete lexers: a comment at the start of
the input, and a non-terminator `#` after an identifier. -/
theorem C4_comment_handling_witness :
    (lexComment (lexInit "# hi" true)).1.typ = .itemComment ∧
    ({ lexInit "a#" true with pos := 1 } : Lexer).atTerminator = false :=
  ⟨((C4_comment_handling.1 (lexInit "# hi" true) [' ', 'h', 'i'] rfl (by decide)).1 rfl).1,
   C4_comment_handling.2.1 { lexInit "a#" true with pos := 1 } (by decide)⟩

/-! ### C1 -/

lemma keywordType_not_delim (w : String) (b : Bool) :
    keywordType w b ≠ .itemError ∧ keywordType w b ≠ .itemLeftDelim ∧
    keywordType w b ≠ .itemRightDelim := by
  unfold keywordType
  split
  · rename_i p hp
    have hm := List.mem_of_find?_eq_some hp
    simp only [keywords, List.mem_cons, List.not_mem_nil, or_false] at hm
    rcases hm with rfl|rfl|rfl|rfl|rfl|rfl|rfl|rfl|rfl|rfl|rfl|rfl|rfl|rfl <;> simp
  · split <;> simp

lemma lexNumber_innerOk (l : Lexer) : innerOk (lexNumber l) := by
  unfold lexNumber
  dsimp only []
  repeat' split
  all_goals simp [innerOk]

lemma lexFieldOrVariable_innerOk (l : Lexer) (typ : ItemType)
    (h1 : typ ≠ .itemLeftDelim) (h2 : typ ≠ .itemRightDelim) :
    innerOk (lexFieldOrVariable l typ) := by
  unfold lexFieldOrVariable
  dsimp only []
  repeat' split
  all_goals simp [innerOk, h1, h2]

lemma lexIdentifier_innerOk (l : Lexer) : innerOk (lexIdentifier l) := by
  unfold lexIdentifier
  dsimp only []
  repeat' split
  all_goals simp [innerOk]
  all_goals exact ⟨(keywordType_not_delim _ _).2.1, (keywordType_not_delim _ _).2.2⟩

lemma lexChar_innerOk (l : Lexer) : innerOk (lexChar l) := by
  unfold lexChar
  dsimp only []
  repeat' split
  all_goals simp [innerOk]

lemma lexQuote_innerOk (l : Lexer) : innerOk (lexQuote l) := by
  unfold lexQuote
  dsimp only []
  repeat' split
  all_goals simp [innerOk]

lemma lexRawQuote_innerOk (l : Lexer) : innerOk (lexRawQuote l) := by
  unfold lexRawQuote
  dsimp only []
  repeat' split
  all_goals simp [innerOk]

lemma lexComment_stepOk (l : Lexer) :
    (lexComment l).1.typ ≠ .itemLeftDelim ∧ (lexComment l).1.typ ≠ .itemRightDelim ∧
    (lexComment l).2.2 = some .whitespaceK ∧
    ((lexComment l).1.notEmpty = false → (lexComment l).1.typ = .itemError) := by
  unfold lexComment
  dsimp only []
  repeat' split
  all_goals simp [emptyItem]

lemma lexInActionSpace_stepOk (l : Lexer) : stepDelimOk true (lexInActionSpace l) := by
  unfold lexInActionSpace
  dsimp only []
  repeat' split
  all_goals simp [stepDelimOk, insideB, emptyItem]

lemma stepDelimOk_of_innerOk (r : StepRes) (h : innerOk r) : stepDelimOk true r := by
  obtain ⟨h1, h2, h3, h4, h5⟩ := h
  refine ⟨fun hc => absurd hc h1, fun hc => absurd hc h2, fun _ _ => ?_, ?_, by simp [h5]⟩
  · rcases h3 with h3 | h3
    · exact Or.inl h3
    · exact Or.inr (by simp [h3, insideB])
  · intro hn
    exact Or.inr (h4 hn)

lemma lexVariable_stepOk (l : Lexer) : stepDelimOk true (lexVariable l) := by
  unfold lexVariable
  split
  · simp [stepDelimOk, insideB]
  · exact stepDelimOk_of_innerOk _
      (lexFieldOrVariable_innerOk _ .itemVariable (by simp) (by simp))

lemma lexInsideAction_stepOk (l : Lexer) : stepDelimOk true (lexInsideAction l) := by
  unfold lexInsideAction
  dsimp only []
  rcases hD : l.input.drop l.pos with _ | ⟨r, rest⟩
  · simp only [List.head?]
    split <;> simp [stepDelimOk, insideB]
  · simp only [List.head?, List.tail_cons]
    by_cases h0 : '0' ≤ r ∧ r ≤ '9'
    · rw [if_pos h0]; exact stepDelimOk_of_innerOk _ (lexNumber_innerOk l)
    rw [if_neg h0]
    by_cases hA : isAlphaNumeric r = true
    · rw [if_pos hA]; exact stepDelimOk_of_innerOk _ (lexIdentifier_innerOk l)
    rw [if_neg hA]
    by_cases hW : r = ' ' ∨ r = '\n' ∨ r = '\t' ∨ r = '\r'
    · rw [if_pos hW]; exact lexInActionSpace_stepOk l
    rw [if_neg hW]
    by_cases hDot : r = '.'
    · rw [if_pos hDot]
      rcases rest with _ | ⟨d2, rest2⟩
      · simp [stepDelimOk, insideB]
      · simp only [List.head?]
        split
        · exact stepDelimOk_of_innerOk _
            (lexFieldOrVariable_innerOk _ .itemField (by simp) (by simp))
        · exact stepDelimOk_of_innerOk _ (lexNumber_innerOk _)
    rw [if_neg hDot]
    by_cases hPipe : r = '|'
    · rw [if_pos hPipe]; simp [stepDelimOk, insideB]
    rw [if_neg hPipe]
    by_cases hEq : r = '='
    · rw [if_pos hEq]; simp [stepDelimOk, insideB]
    rw [if_neg hEq]
    by_cases hCol : r = ':'
    · rw [if_pos hCol]
      rcases rest with _ | ⟨d2, rest2⟩
      · simp [stepDelimOk, insideB]
      · simp only [List.head?]
        split <;> simp [stepDelimOk, insideB]
    rw [if_neg hCol]
    by_cases hQ : r = dquote
    · rw [if_pos hQ]; exact stepDelimOk_of_innerOk _ (lexQuote_innerOk _)
    rw [if_neg hQ]
    by_cases hBQ : r = backquote
    · rw [if_pos hBQ]; exact stepDelimOk_of_innerOk _ (lexRawQuote_innerOk _)
    rw [if_neg hBQ]
    by_cases hDol : r = '$'
    · rw [if_pos hDol]; exact lexVariable_stepOk _
    rw [if_neg hDol]
    by_cases hSQ : r = squote
    · rw [if_pos hSQ]; exact stepDelimOk_of_innerOk _ (lexChar_innerOk _)
    rw [if_neg hSQ]
    by_cases hLP : r = '('
    · rw [if_pos hLP]; simp [stepDelimOk, insideB]
    rw [if_neg hLP]
    by_cases hRP : r = ')'
    · rw [if_pos hRP]
      split <;> simp [stepDelimOk, insideB]
    rw [if_neg hRP]
    by_cases hPM : r = '+' ∨ r = '-'
    · rw [if_pos hPM]; exact stepDelimOk_of_innerOk _ (lexNumber_innerOk l)
    rw [if_neg hPM]
    by_cases hSemi : r = ';'
    · rw [if_pos hSemi]; simp [stepDelimOk, insideB]
    rw [if_neg hSemi]
    by_cases hPr : isPrintASCII r = true
    · rw [if_pos hPr]; simp [stepDelimOk, insideB]
    · rw [if_neg hPr]; simp [stepDelimOk, insideB]

lemma lexWhitespace_stepOk (l : Lexer) : stepDelimOk false (lexWhitespace l) := by
  unfold lexWhitespace
  dsimp only []
  split
  · simp [stepDelimOk, insideB]
  · split
    · simp [stepDelimOk, insideB]
    · split
      · refine ⟨fun hc => absurd hc (lexComment_stepOk _).1,
          fun hc => absurd hc (lexComment_stepOk _).2.1, fun _ _ => ?_, ?_,
          (lexComment_stepOk _).2.2.2⟩
        · refine Or.inr ?_
          rw [(lexComment_stepOk _).2.2.1]
          rfl
        · intro hn
          rw [(lexComment_stepOk _).2.2.1] at hn
          simp at hn
      · simp [stepDelimOk, insideB]

lemma stepOf_stepOk (s : StateK) (l : Lexer) :
    stepDelimOk (insideB (some s)) (stepOf s l) := by
  cases s
  · exact lexWhitespace_stepOk l
  · exact lexInsideAction_stepOk l
  · exact lexInActionSpace_stepOk l

lemma nextItemLoop_stepOk (fuel : Nat) (l : Lexer) :
    stepTopOk l (nextItemLoop fuel l) := by
  induction fuel generalizing l with
  | zero =>
    refine ⟨fun h => absurd h (by simp [nextItemLoop]),
      fun h => absurd h (by simp [nextItemLoop]),
      fun _ _ => Or.inr ?_, fun _ => Or.inl (by simp [nextItemLoop])⟩
    simp [nextItemLoop, Lexer.openB]
  | succ fuel ih =>
    unfold nextItemLoop
    dsimp only []
    split
    · refine ⟨fun h => absurd h (by simp), fun h => absurd h (by simp),
        fun _ _ => Or.inr (by simp [Lexer.openB]), fun _ => Or.inl (by simp)⟩
    · rename_i s hns
      have hst := stepOf_stepOk s l
      have hopen : l.openB = insideB (some s) := by rw [Lexer.openB, hns]
      split
      · rename_i hnone
        refine ⟨?_, ?_, fun _ _ => Or.inl hnone, fun _ => hst.2.2.2.1 hnone⟩
        · intro h
          obtain ⟨hb, hi⟩ := hst.1 h
          rw [hnone] at hi
          exact absurd hi (by simp [insideB])
        · intro h
          obtain ⟨hb, hi⟩ := hst.2.1 h
          exact ⟨by rw [hopen]; exact hb, hi⟩
      · rename_i s2 hsome
        split
        · refine ⟨?_, ?_, ?_, ?_⟩
          · intro h
            obtain ⟨hb, hi⟩ := hst.1 h
            exact ⟨by rw [hopen]; exact hb, hi⟩
          · intro h
            obtain ⟨hb, hi⟩ := hst.2.1 h
            exact ⟨by rw [hopen]; exact hb, hi⟩
          · intro h1 h2
            rcases hst.2.2.1 h1 h2 with hn | he
            · rw [hn] at hsome; exact absurd hsome (by simp)
            · refine Or.inr ?_
              show insideB (stepOf s l).2.2 = l.openB
              rw [hopen]; exact he
          · intro hn
            rw [show ((stepOf s l).1,
                ({ (stepOf s l).2.1 with nextState := (stepOf s l).2.2 } : Lexer)).2.nextState
                = (stepOf s l).2.2 from rfl, hsome] at hn
            simp at hn
        · rename_i hne
          have hempty : (stepOf s l).1.notEmpty = false := by
            rw [Bool.not_eq_true] at hne; exact hne
          have herr := hst.2.2.2.2 hempty
          have heq :
              ({ (stepOf s l).2.1 with nextState := (stepOf s l).2.2 } : Lexer).openB
                = l.openB := by
            rcases hst.2.2.1 (by rw [herr]; simp) (by rw [herr]; simp) with hn | he
            · rw [hn] at hsome; exact absurd hsome (by simp)
            · show insideB (stepOf s l).2.2 = l.openB
              rw [hopen]; exact he
          have IH := ih { (stepOf s l).2.1 with nextState := (stepOf s l).2.2 }
          refine ⟨?_, ?_, ?_, IH.2.2.2⟩
          · intro h
            obtain ⟨hb, hi⟩ := IH.1 h
            exact ⟨by rw [← heq]; exact hb, hi⟩
          · intro h
            obtain ⟨hb, hi⟩ := IH.2.1 h
            exact ⟨by rw [← heq]; exact hb, hi⟩
          · intro h1 h2
            rcases IH.2.2.1 h1 h2 with hn | he
            · exact Or.inl hn
            · exact Or.inr (by rw [← heq]; exact he)

lemma nextItem_stepOk (l : Lexer) : stepTopOk l l.nextItem :=
  nextItemLoop_stepOk _ l

lemma lexRun_altFrom (l : Lexer) (items : List Item) (h : LexRun l items) :
    altFrom l.openB items := by
  induction h with
  | stop l it l2 hni hstop =>
    have hnd : it.typ ≠ .itemLeftDelim ∧ it.typ ≠ .itemRightDelim := by
      rcases hstop with h | h <;> simp [h]
    simp [altFrom, hnd.1, hnd.2]
  | cons l it l2 rest hni hne hrun ih =>
    have hst := nextItem_stepOk l
    rw [hni] at hst
    by_cases hL : it.typ = .itemLeftDelim
    · obtain ⟨hb, hafter⟩ := hst.1 hL
      simp only [altFrom, hL, if_pos]
      refine ⟨hb, ?_⟩
      rw [← hafter]
      exact ih
    · by_cases hR : it.typ = .itemRightDelim
      · obtain ⟨hb, hafter⟩ := hst.2.1 hR
        simp only [altFrom, hL, hR, if_neg hL, if_pos]
        refine ⟨hb, ?_⟩
        rw [← hafter]
        exact ih
      · rcases hst.2.2.1 hL hR with hn | he
        · exact absurd (hst.2.2.2 hn) hne
        · simp only [altFrom, if_neg hL, if_neg hR]
          rw [← he]
          exact ih

lemma lexRun_getLast (l : Lexer) (items : List Item) (h : LexRun l items) :
    ∃ last, items.getLast? = some last ∧
      (last.typ = .itemEOF ∨ last.typ = .itemError) := by
  induction h with
  | stop l it l2 hni hstop => exact ⟨it, rfl, hstop⟩
  | cons l it l2 rest hni hne hrun ih =>
    obtain ⟨last, hl, ht⟩ := ih
    rcases hrest : rest with _ | ⟨it2, rest2⟩
    · rw [hrest] at hl; simp at hl
    · rw [hrest] at hl
      exact ⟨last, by rw [List.getLast?_cons_cons]; exact hl, ht⟩

/-- C1 counterexample: lexing `@` yields LEFT_DELIM, CHAR, EOF — a stream
with no ERROR token in which the LEFT_DELIM is not followed by any
RIGHT_DELIM before the EOF token (EOF is reached in the in-action-space
state, which skips the closing delimiter). -/
theorem C1_open_left_at_eof_cex :
    (lexString "@" true).map (fun it => it.typ) =
      [.itemLeftDelim, .itemChar, .itemEOF] ∧
    (∀ it ∈ lexString "@" true, it.typ ≠ .itemError) ∧
    (∀ it ∈ lexString "@" true, it.typ ≠ .itemRightDelim) :=
  ⟨by decide, by decide, by decide⟩

/-- C1 amended: in every complete token stream produced by repeatedly
calling nextItem, LEFT_DELIM and RIGHT_DELIM strictly alternate starting
with LEFT_DELIM; every such stream ends with a single EOF or ERROR item,
and when it contains no ERROR it ends with EOF — but a LEFT_DELIM may be
closed by that final EOF instead of a RIGHT_DELIM (when end of input is
reached in the in-action whitespace state). -/
theorem C1_delim_alternation (input : String) (ec : Bool) (items : List Item)
    (h : LexRun (lexInit input ec) items) :
    altFrom false items ∧
    ∃ last, items.getLast? = some last ∧
      ((∀ it ∈ items, it.typ ≠ .itemError) → last.typ = .itemEOF) := by
  constructor
  · have ha := lexRun_altFrom _ _ h
    simpa [Lexer.openB, lexInit, insideB] using ha
  · obtain ⟨last, hl, ht⟩ := lexRun_getLast _ _ h
    refine ⟨last, hl, fun hno => ?_⟩
    rcases ht with ht | ht
    · exact ht
    · have hmem : last ∈ items := by
        obtain ⟨hne2, heq⟩ := List.mem_getLast?_eq_getLast (show last ∈ items.getLast? by simp [Option.mem_def, hl])
        rw [heq]
        exact List.getLast_mem hne2
      exact absurd ht (hno last hmem)

/-- Witness for C1 amended on the concrete run of `now is the time`. -/
theorem C1_delim_alternation_witness :
    altFrom false (lexString "now is the time" true) ∧
    ∃ last, (lexString "now is the time" true).getLast? = some last ∧
      ((∀ it ∈ lexString "now is the time" true, it.typ ≠ .itemError) →
        last.typ = .itemEOF) :=
  C1_delim_alternation "now is the time" true _
    (collect_lexRun _ _ _ rfl ⟨⟨.itemEOF, 15, "", 1, true⟩, by decide, by decide⟩)


/-! ### Lemmas and theorems for the lazy-value model -/

lemma countPCs_append {V : Type} (ts1 ts2 : List (LVPC × Option V)) (ps : List LVPC) :
    countPCs (ts1 ++ ts2) ps = countPCs ts1 ps + countPCs ts2 ps := by
  simp [countPCs, List.filter_append]

lemma countPCs_cons {V : Type} (t : LVPC × Option V) (ts : List (LVPC × Option V))
    (ps : List LVPC) :
    countPCs (t :: ts) ps = (if t.1 ∈ ps then 1 else 0) + countPCs ts ps := by
  by_cases h : t.1 ∈ ps
  · simp [countPCs, List.filter_cons, h, Nat.add_comm]
  · simp [countPCs, List.filter_cons, h]

lemma lvInit_inv {V : Type} (cVal : V) (n : Nat) : LVInv cVal (lvInit V n) := by
  have hc : ∀ ps : List LVPC, LVPC.start ∉ ps →
      countPCs (List.replicate n ((.start : LVPC), (none : Option V))) ps = 0 := by
    intro ps hps
    induction n with
    | zero => simp [countPCs]
    | succ m ihm =>
      rw [List.replicate_succ, countPCs_cons]
      simp [hps, ihm]
  unfold LVInv lvInit
  dsimp only []
  refine ⟨?_, ?_, ?_, ?_, ?_, ?_, ?_, ?_⟩
  · rw [hc _ (by decide)]
    rfl
  · intro _
    exact ⟨hc _ (by decide), rfl⟩
  · intro h; simp at h
  · exact Or.inl ⟨rfl, rfl⟩
  · rw [hc _ (by decide)]; intro h; simp at h
  · rw [hc _ (by decide)]; intro h; simp at h
  · intro t ht hdone
    simp only [List.mem_replicate] at ht
    rw [ht.2] at hdone
    simp at hdone
  · rw [hc _ (by decide)]; intro h; simp at h

lemma countPCs_swap {V : Type} (a b : List (LVPC × Option V)) (p q : LVPC)
    (rv rv2 : Option V) (ps : List LVPC) :
    (if p ∈ ps then 1 else 0) + countPCs (a ++ (q, rv2) :: b) ps
      = (if q ∈ ps then 1 else 0) + countPCs (a ++ (p, rv) :: b) ps := by
  simp only [countPCs_append, countPCs_cons]
  omega

lemma countPCs_middle_pos {V : Type} (a b : List (LVPC × Option V)) (p : LVPC)
    (rv : Option V) (ps : List LVPC) (h : p ∈ ps) :
    0 < countPCs (a ++ (p, rv) :: b) ps := by
  simp only [countPCs_append, countPCs_cons]
  simp [h]

lemma mem_middle_transfer {V : Type} (a b : List (LVPC × Option V))
    (x y : LVPC × Option V) (t : LVPC × Option V) (ht : t ∈ a ++ y :: b) :
    t = y ∨ t ∈ a ++ x :: b := by
  simp only [List.mem_append, List.mem_cons] at ht ⊢
  tauto

lemma countPCs_le_of_subset {V : Type} (ts : List (LVPC × Option V)) (ps qs : List LVPC)
    (h : ∀ x ∈ ps, x ∈ qs) : countPCs ts ps ≤ countPCs ts qs := by
  induction ts with
  | nil => simp [countPCs]
  | cons t rest ih =>
    rw [countPCs_cons, countPCs_cons]
    by_cases hm : t.1 ∈ ps
    · rw [if_pos hm, if_pos (h t.1 hm)]
      omega
    · rw [if_neg hm]
      split <;> omega

lemma lvInv_inc {V : Type} (cVal : V) (ini : Bool) (w : Int) (v : Option V) (cc : Nat)
    (a b : List (LVPC × Option V)) (rv : Option V)
    (hs : LVInv cVal ⟨ini, w, v, cc, a ++ (.start, rv) :: b⟩) :
    LVInv cVal ⟨ini, w + 1, v, cc, a ++ (.cas, rv) :: b⟩ := by
  obtain ⟨h1, h2, h3, h4, h5, h6, h7, h8⟩ := hs
  dsimp only [LVInv] at *
  refine ⟨?_, ?_, ?_, h4, ?_, ?_, ?_, ?_⟩
  · have hsw := countPCs_swap a b .start .cas rv rv [.cas, .create, .winDec, .loserDec]
    simp at hsw
    omega
  · intro hini
    obtain ⟨hz, hcc⟩ := h2 hini
    refine ⟨?_, hcc⟩
    have hsw := countPCs_swap a b .start .cas rv rv
      [.create, .winDec, .loserDec, .spin, .retrn, .done]
    simp at hsw
    omega
  · intro hini
    have h3x := h3 hini
    have hsw := countPCs_swap a b .start .cas rv rv [.create]
    simp at hsw
    omega
  · intro hpos
    apply h5
    have hsw := countPCs_swap a b .start .cas rv rv [.winDec]
    simp at hsw
    omega
  · intro hpos
    apply h6
    have hsw := countPCs_swap a b .start .cas rv rv [.retrn]
    simp at hsw
    omega
  · intro t ht hdone
    rcases mem_middle_transfer a b (.start, rv) _ t ht with rfl | hmem
    · simp at hdone
    · exact h7 t hmem hdone
  · intro hpos
    apply h8
    have hsw := countPCs_swap a b .start .cas rv rv [.done]
    simp at hsw
    omega

lemma lvInv_casWin {V : Type} (cVal : V) (w : Int) (v : Option V) (cc : Nat)
    (a b : List (LVPC × Option V)) (rv : Option V)
    (hs : LVInv cVal ⟨false, w, v, cc, a ++ (.cas, rv) :: b⟩) :
    LVInv cVal ⟨true, w, v, cc, a ++ (.create, rv) :: b⟩ := by
  obtain ⟨h1, h2, h3, h4, h5, h6, h7, h8⟩ := hs
  dsimp only [LVInv] at *
  obtain ⟨hz, hcc⟩ := h2 rfl
  refine ⟨?_, ?_, ?_, h4, ?_, ?_, ?_, ?_⟩
  · have hsw := countPCs_swap a b .cas .create rv rv [.cas, .create, .winDec, .loserDec]
    simp at hsw
    omega
  · intro hini
    simp at hini
  · intro _
    have hsw := countPCs_swap a b .cas .create rv rv [.create]
    simp at hsw
    have hle := countPCs_le_of_subset (a ++ ((.cas : LVPC), rv) :: b) [.create]
      [.create, .winDec, .loserDec, .spin, .retrn, .done] (by decide)
    omega
  · intro hpos
    apply h5
    have hsw := countPCs_swap a b .cas .create rv rv [.winDec]
    simp at hsw
    omega
  · intro hpos
    apply h6
    have hsw := countPCs_swap a b .cas .create rv rv [.retrn]
    simp at hsw
    omega
  · intro t ht hdone
    rcases mem_middle_transfer a b (.cas, rv) _ t ht with rfl | hmem
    · simp at hdone
    · exact h7 t hmem hdone
  · intro hpos
    apply h8
    have hsw := countPCs_swap a b .cas .create rv rv [.done]
    simp at hsw
    omega

lemma lvInv_casLose {V : Type} (cVal : V) (w : Int) (v : Option V) (cc : Nat)
    (a b : List (LVPC × Option V)) (rv : Option V)
    (hs : LVInv cVal ⟨true, w, v, cc, a ++ (.cas, rv) :: b⟩) :
    LVInv cVal ⟨true, w, v, cc, a ++ (.loserDec, rv) :: b⟩ := by
  obtain ⟨h1, h2, h3, h4, h5, h6, h7, h8⟩ := hs
  dsimp only [LVInv] at *
  refine ⟨?_, ?_, ?_, h4, ?_, ?_, ?_, ?_⟩
  · have hsw := countPCs_swap a b .cas .loserDec rv rv [.cas, .create, .winDec, .loserDec]
    simp at hsw
    omega
  · intro hini
    simp at hini
  · intro _
    have h3x := h3 rfl
    have hsw := countPCs_swap a b .cas .loserDec rv rv [.create]
    simp at hsw
    omega
  · intro hpos
    apply h5
    have hsw := countPCs_swap a b .cas .loserDec rv rv [.winDec]
    simp at hsw
    omega
  · intro hpos
    apply h6
    have hsw := countPCs_swap a b .cas .loserDec rv rv [.retrn]
    simp at hsw
    omega
  · intro t ht hdone
    rcases mem_middle_transfer a b (.cas, rv) _ t ht with rfl | hmem
    · simp at hdone
    · exact h7 t hmem hdone
  · intro hpos
    apply h8
    have hsw := countPCs_swap a b .cas .loserDec rv rv [.done]
    simp at hsw
    omega

lemma lvInv_create {V : Type} (cVal : V) (ini : Bool) (w : Int) (v : Option V) (cc : Nat)
    (a b : List (LVPC × Option V)) (rv : Option V)
    (hs : LVInv cVal ⟨ini, w, v, cc, a ++ (.create, rv) :: b⟩) :
    LVInv cVal ⟨ini, w, some cVal, cc + 1, a ++ (.winDec, rv) :: b⟩ := by
  obtain ⟨h1, h2, h3, h4, h5, h6, h7, h8⟩ := hs
  dsimp only [LVInv] at *
  have hbig := countPCs_middle_pos a b .create rv
    [.create, .winDec, .loserDec, .spin, .retrn, .done] (by decide)
  have hini : ini = true := by
    cases hi : ini
    · rw [hi] at h2
      have := (h2 rfl).1
      omega
    · rfl
  subst hini
  have h3x := h3 rfl
  have hcr := countPCs_middle_pos a b .create rv [.create] (by decide)
  have hcc : cc = 0 := by omega
  refine ⟨?_, ?_, ?_, ?_, ?_, ?_, ?_, ?_⟩
  · have hsw := countPCs_swap a b .create .winDec rv rv [.cas, .create, .winDec, .loserDec]
    simp at hsw
    omega
  · intro hini2
    simp at hini2
  · intro _
    have hsw := countPCs_swap a b .create .winDec rv rv [.create]
    simp at hsw
    omega
  · exact Or.inr ⟨rfl, by omega⟩
  · intro _
    omega
  · intro _
    rfl
  · intro t ht hdone
    rcases mem_middle_transfer a b (.create, rv) _ t ht with rfl | hmem
    · simp at hdone
    · exact h7 t hmem hdone
  · intro _
    rfl

lemma lvInv_winDec {V : Type} (cVal : V) (ini : Bool) (w : Int) (v : Option V) (cc : Nat)
    (a b : List (LVPC × Option V)) (rv : Option V)
    (hs : LVInv cVal ⟨ini, w, v, cc, a ++ (.winDec, rv) :: b⟩) :
    LVInv cVal ⟨ini, w - 1, v, cc, a ++ (.retrn, rv) :: b⟩ := by
  obtain ⟨h1, h2, h3, h4, h5, h6, h7, h8⟩ := hs
  dsimp only [LVInv] at *
  have hbig := countPCs_middle_pos a b .winDec rv
    [.create, .winDec, .loserDec, .spin, .retrn, .done] (by decide)
  have hini : ini = true := by
    cases hi : ini
    · rw [hi] at h2
      have := (h2 rfl).1
      omega
    · rfl
  subst hini
  have hwd := countPCs_middle_pos a b .winDec rv [.winDec] (by decide)
  have hcc : cc = 1 := h5 hwd
  have hv : v = some cVal := by
    rcases h4 with ⟨_, h⟩ | ⟨h, _⟩
    · omega
    · exact h
  refine ⟨?_, ?_, ?_, h4, ?_, ?_, ?_, ?_⟩
  · have hsw := countPCs_swap a b .winDec .retrn rv rv [.cas, .create, .winDec, .loserDec]
    simp at hsw
    omega
  · intro hini2
    simp at hini2
  · intro _
    have h3x := h3 rfl
    have hsw := countPCs_swap a b .winDec .retrn rv rv [.create]
    simp at hsw
    omega
  · intro _
    exact hcc
  · intro _
    exact hv
  · intro t ht hdone
    rcases mem_middle_transfer a b (.winDec, rv) _ t ht with rfl | hmem
    · simp at hdone
    · exact h7 t hmem hdone
  · intro hpos
    apply h8
    have hsw := countPCs_swap a b .winDec .retrn rv rv [.done]
    simp at hsw
    omega

lemma lvInv_loserDec {V : Type} (cVal : V) (ini : Bool) (w : Int) (v : Option V) (cc : Nat)
    (a b : List (LVPC × Option V)) (rv : Option V)
    (hs : LVInv cVal ⟨ini, w, v, cc, a ++ (.loserDec, rv) :: b⟩) :
    LVInv cVal ⟨ini, w - 1, v, cc, a ++ (.spin, rv) :: b⟩ := by
  obtain ⟨h1, h2, h3, h4, h5, h6, h7, h8⟩ := hs
  dsimp only [LVInv] at *
  have hbig := countPCs_middle_pos a b .loserDec rv
    [.create, .winDec, .loserDec, .spin, .retrn, .done] (by decide)
  have hini : ini = true := by
    cases hi : ini
    · rw [hi] at h2
      have := (h2 rfl).1
      omega
    · rfl
  subst hini
  refine ⟨?_, ?_, ?_, h4, ?_, ?_, ?_, ?_⟩
  · have hsw := countPCs_swap a b .loserDec .spin rv rv [.cas, .create, .winDec, .loserDec]
    simp at hsw
    omega
  · intro hini2
    simp at hini2
  · intro _
    have h3x := h3 rfl
    have hsw := countPCs_swap a b .loserDec .spin rv rv [.create]
    simp at hsw
    omega
  · intro hpos
    apply h5
    have hsw := countPCs_swap a b .loserDec .spin rv rv [.winDec]
    simp at hsw
    omega
  · intro hpos
    apply h6
    have hsw := countPCs_swap a b .loserDec .spin rv rv [.retrn]
    simp at hsw
    omega
  · intro t ht hdone
    rcases mem_middle_transfer a b (.loserDec, rv) _ t ht with rfl | hmem
    · simp at hdone
    · exact h7 t hmem hdone
  · intro hpos
    apply h8
    have hsw := countPCs_swap a b .loserDec .spin rv rv [.done]
    simp at hsw
    omega

lemma lvInv_spinExit {V : Type} (cVal : V) (ini : Bool) (v : Option V) (cc : Nat)
    (a b : List (LVPC × Option V)) (rv : Option V)
    (hs : LVInv cVal ⟨ini, 0, v, cc, a ++ (.spin, rv) :: b⟩) :
    LVInv cVal ⟨ini, 0, v, cc, a ++ (.retrn, rv) :: b⟩ := by
  obtain ⟨h1, h2, h3, h4, h5, h6, h7, h8⟩ := hs
  dsimp only [LVInv] at *
  have hbig := countPCs_middle_pos a b .spin rv
    [.create, .winDec, .loserDec, .spin, .retrn, .done] (by decide)
  have hini : ini = true := by
    cases hi : ini
    · rw [hi] at h2
      have := (h2 rfl).1
      omega
    · rfl
  subst hini
  have h3x := h3 rfl
  have hle := countPCs_le_of_subset (a ++ ((.spin : LVPC), rv) :: b) [.create]
    [.cas, .create, .winDec, .loserDec] (by decide)
  have hcc : cc = 1 := by omega
  have hv : v = some cVal := by
    rcases h4 with ⟨_, h⟩ | ⟨h, _⟩
    · omega
    · exact h
  refine ⟨?_, ?_, ?_, h4, ?_, ?_, ?_, ?_⟩
  · have hsw := countPCs_swap a b .spin .retrn rv rv [.cas, .create, .winDec, .loserDec]
    simp at hsw
    omega
  · intro hini2
    simp at hini2
  · intro _
    have hsw := countPCs_swap a b .spin .retrn rv rv [.create]
    simp at hsw
    omega
  · intro hpos
    apply h5
    have hsw := countPCs_swap a b .spin .retrn rv rv [.winDec]
    simp at hsw
    omega
  · intro _
    exact hv
  · intro t ht hdone
    rcases mem_middle_transfer a b (.spin, rv) _ t ht with rfl | hmem
    · simp at hdone
    · exact h7 t hmem hdone
  · intro hpos
    apply h8
    have hsw := countPCs_swap a b .spin .retrn rv rv [.done]
    simp at hsw
    omega

lemma lvInv_ret {V : Type} (cVal : V) (ini : Bool) (w : Int) (v : Option V) (cc : Nat)
    (a b : List (LVPC × Option V)) (rv : Option V)
    (hs : LVInv cVal ⟨ini, w, v, cc, a ++ (.retrn, rv) :: b⟩) :
    LVInv cVal ⟨ini, w, v, cc, a ++ (.done, v) :: b⟩ := by
  obtain ⟨h1, h2, h3, h4, h5, h6, h7, h8⟩ := hs
  dsimp only [LVInv] at *
  have hbig := countPCs_middle_pos a b .retrn rv
    [.create, .winDec, .loserDec, .spin, .retrn, .done] (by decide)
  have hini : ini = true := by
    cases hi : ini
    · rw [hi] at h2
      have := (h2 rfl).1
      omega
    · rfl
  subst hini
  have hrp := countPCs_middle_pos a b .retrn rv [.retrn] (by decide)
  have hv : v = some cVal := h6 hrp
  refine ⟨?_, ?_, ?_, h4, ?_, ?_, ?_, ?_⟩
  · have hsw := countPCs_swap a b .retrn .done rv v [.cas, .create, .winDec, .loserDec]
    simp at hsw
    omega
  · intro hini2
    simp at hini2
  · intro _
    have h3x := h3 rfl
    have hsw := countPCs_swap a b .retrn .done rv v [.create]
    simp at hsw
    omega
  · intro hpos
    apply h5
    have hsw := countPCs_swap a b .retrn .done rv v [.winDec]
    simp at hsw
    omega
  · intro _
    exact hv
  · intro t ht hdone
    rcases mem_middle_transfer a b (.retrn, rv) _ t ht with rfl | hmem
    · exact hv
    · exact h7 t hmem hdone
  · intro _
    exact hv

lemma LVInv_step {V : Type} {cVal : V} {s s2 : LVState V}
    (hs : LVInv cVal s) (hstep : LVStep V cVal s s2) : LVInv cVal s2 := by
  cases hstep with
  | inc ini w v cc a b rv => exact lvInv_inc cVal ini w v cc a b rv hs
  | casWin w v cc a b rv => exact lvInv_casWin cVal w v cc a b rv hs
  | casLose w v cc a b rv => exact lvInv_casLose cVal w v cc a b rv hs
  | createStep ini w v cc a b rv => exact lvInv_create cVal ini w v cc a b rv hs
  | winDecStep ini w v cc a b rv => exact lvInv_winDec cVal ini w v cc a b rv hs
  | loserDecStep ini w v cc a b rv => exact lvInv_loserDec cVal ini w v cc a b rv hs
  | spinWait ini w v cc a b rv hw => exact hs
  | spinExit ini v cc a b rv => exact lvInv_spinExit cVal ini v cc a b rv hs
  | retStep ini w v cc a b rv => exact lvInv_ret cVal ini w v cc a b rv hs

lemma LVReach_inv {V : Type} {cVal : V} {s : LVState V}
    (hr : LVReach V cVal s) : LVInv cVal s := by
  induction hr with
  | init n => exact lvInit_inv cVal n
  | step _ hstep ih => exact LVInv_step ih hstep

/-- C9: For the lazy-value primitive accessed by any number of concurrent callers of
GetLazyValue (modelled as an interleaved small-step transition system over the atomic
operations of src/lazy.go: the AddInt32 increment of writing, the CompareAndSwapInt32
on initialized, the Create call, the decrements, the Gosched spin on writing, and the
return of value): in every reachable state the Create constructor has been executed at
most once, every caller that has returned got exactly the value the constructor
produced, and no caller has returned before the constructor completed. -/
theorem C9_lazy_value {V : Type} (cVal : V) (s : LVState V)
    (hr : LVReach V cVal s) :
    s.createCount ≤ 1 ∧
    (∀ t ∈ s.threads, t.1 = LVPC.done → t.2 = some cVal) ∧
    (0 < countPCs s.threads [LVPC.done] → s.createCount = 1) := by
  obtain ⟨h1, h2, h3, h4, h5, h6, h7, h8⟩ := LVReach_inv hr
  refine ⟨?_, h7, ?_⟩
  · rcases h4 with ⟨_, h⟩ | ⟨_, h⟩ <;> omega
  · intro hpos
    have hv := h8 hpos
    rcases h4 with ⟨hn, _⟩ | ⟨_, h⟩
    · simp [hv] at hn
    · exact h

theorem C9_lazy_value_witness :
    (⟨true, 0, some 42, 1, [(LVPC.done, some 42)]⟩ : LVState Nat).createCount ≤ 1 ∧
    (∀ t ∈ (⟨true, 0, some 42, 1, [(LVPC.done, some 42)]⟩ : LVState Nat).threads,
      t.1 = LVPC.done → t.2 = some 42) ∧
    (0 < countPCs (⟨true, 0, some 42, 1, [(LVPC.done, some 42)]⟩ : LVState Nat).threads
      [LVPC.done] →
      (⟨true, 0, some 42, 1, [(LVPC.done, some 42)]⟩ : LVState Nat).createCount = 1) :=
  C9_lazy_value 42 ⟨true, 0, some 42, 1, [(LVPC.done, some 42)]⟩
    (LVReach.step (LVReach.step (LVReach.step (LVReach.step (LVReach.step
      (LVReach.init 1)
      (LVStep.inc false 0 none 0 [] [] none))
      (LVStep.casWin 1 none 0 [] [] none))
      (LVStep.createStep true 1 none 0 [] [] none))
      (LVStep.winDecStep true 1 (some 42) 1 [] [] none))
      (LVStep.retStep true 0 (some 42) 1 [] [] none))


end TLang
